import Mathlib

/-! Users CRUD API: request handlers and validation middleware.

A shallow embedding of `src/routes/users.js` and `src/middleware/validation.js`.

* The record store (a MongoDB collection reached through Mongoose) is a list of
  user records in insertion order; every handler takes the store and returns the
  store it leaves behind.
* A handler ends either in `res.status(n).json(body)` or in `next(error)`; both
  ends are constructors of `Outcome`.
* The numbers of the list handler are JavaScript doubles: `JsNum` holds `NaN`,
  the two infinities and the doubles that are integers, and `parseInt`,
  subtraction and multiplication round as IEEE 754 does.
* Query parameters are absent or a string (repeated or bracketed parameters,
  which Express parses to arrays and objects, are left out).  JSON body values
  are null, booleans, integers and strings (fractions, arrays and nested
  objects are left out).
* Library behaviour that the repository does not define (`validator.isEmail`,
  `validator.normalizeEmail`, the cast of a string to an ObjectId, the
  regular-expression engine of the database, and what assigning a key that is
  no schema path does to a Mongoose document) is a field of `Env`, and the
  theorems hold for every `Env` unless they say otherwise.
-/

namespace UsersApi

/-! ## JavaScript helpers -/

/-- White space and line terminators of ECMAScript: what `parseInt` skips at the
start of its argument and what the regular-expression class `\s` matches. -/
def isJsWhitespace (c : Char) : Bool :=
  let n := c.toNat
  n == 0x09 || n == 0x0A || n == 0x0B || n == 0x0C || n == 0x0D || n == 0x20 ||
  n == 0xA0 || n == 0x1680 || (0x2000 ≤ n && n ≤ 0x200A) || n == 0x2028 ||
  n == 0x2029 || n == 0x202F || n == 0x205F || n == 0x3000 || n == 0xFEFF

/-- Line terminators of ECMAScript: the characters `.` does not match. -/
def isLineTerminator (c : Char) : Bool :=
  let n := c.toNat
  n == 0x0A || n == 0x0D || n == 0x2028 || n == 0x2029

/-- Value of a character as a digit in the given radix (10 or 16). -/
def digitValue (radix : Nat) (c : Char) : Option Nat :=
  let n := c.toNat
  if 48 ≤ n && n ≤ 57 then some (n - 48)
  else if radix == 16 && 97 ≤ n && n ≤ 102 then some (n - 87)
  else if radix == 16 && 65 ≤ n && n ≤ 70 then some (n - 55)
  else none

/-- Longest prefix of digits of the radix, as the list of their values. -/
def leadingDigits (radix : Nat) : List Char → List Nat
  | [] => []
  | c :: cs =>
    match digitValue radix c with
    | some d => d :: leadingDigits radix cs
    | none => []

/-- Number written by a list of digit values, most significant first. -/
def digitsToNat (radix : Nat) (ds : List Nat) : Nat :=
  ds.foldl (fun acc d => acc * radix + d) 0

/-- Sign read by `parseInt`, and the input after the sign. -/
def splitSign : List Char → Int × List Char
  | '-' :: cs => (-1, cs)
  | '+' :: cs => (1, cs)
  | cs => (1, cs)

/-- Radix chosen by `parseInt` without a radix argument, and the input after a
`0x` or `0X` prefix. -/
def splitRadix : List Char → Nat × List Char
  | '0' :: 'x' :: cs => (16, cs)
  | '0' :: 'X' :: cs => (16, cs)
  | cs => (10, cs)

/-- JavaScript number of the list handler: `NaN`, an infinity with its sign, or
a double that is an integer (negative zero is zero). -/
inductive JsNum where
  | nan
  | inf (negative : Bool)
  | int (n : Int)
  deriving DecidableEq, Repr

/-- Largest integer up to which every integer is a double: 2^53. -/
def maxExact : Nat := 2 ^ 53

/-- Number of binary digits of a natural number, counted with fuel. -/
def bitLengthAux : Nat → Nat → Nat
  | 0, _ => 0
  | fuel + 1, m => if m = 0 then 0 else bitLengthAux fuel (m / 2) + 1

/-- Number of binary digits of a natural number. -/
def bitLength (m : Nat) : Nat := bitLengthAux m m

/-- A natural number rounded to 53 significant bits, to nearest, ties to the
even significand: the double nearest to it when that double is finite. -/
def roundToPrecision (m : Nat) : Nat :=
  if m ≤ maxExact then m
  else
    let unit := 2 ^ (bitLength m - 53)
    let q := m / unit
    let r := m % unit
    let up := decide (unit < 2 * r) || (decide (2 * r = unit) && decide (q % 2 = 1))
    (if up then q + 1 else q) * unit

/-- The double nearest to an integer (`𝔽` of the language specification): the
integer itself up to 2^53 in magnitude, otherwise the rounded value, which is
an infinity from 2^1024 on. -/
def toDouble (n : Int) : JsNum :=
  if n.natAbs ≤ maxExact then .int n
  else
    let m := roundToPrecision n.natAbs
    if 1024 < bitLength m then .inf (decide (n < 0))
    else if n < 0 then .int (-(m : Int)) else .int m

/-- The integer `parseInt` reads before it converts it to a number: leading
white space is skipped, then come an optional sign, an optional `0x` and the
longest run of digits; `none` when no digit is there. -/
def readMathInt (s : String) : Option Int :=
  let trimmed := s.toList.dropWhile isJsWhitespace
  let (sign, afterSign) := splitSign trimmed
  let (radix, rest) := splitRadix afterSign
  match leadingDigits radix rest with
  | [] => none
  | ds => some (sign * (digitsToNat radix ds : Int))

/-- ECMAScript `parseInt(string)` with no radix argument: `NaN` when no digit
is read, otherwise the double nearest to the integer read. -/
def jsParseInt (s : String) : JsNum :=
  match readMathInt s with
  | none => .nan
  | some n => toDouble n

/-- Whether a number is zero or more: an integer from zero on, or the positive
infinity. -/
def JsNum.isNonneg : JsNum → Bool
  | .nan => false
  | .int n => decide (0 ≤ n)
  | .inf negative => !negative

/-- Whether a number is falsy: `NaN` and zero are. -/
def JsNum.falsy : JsNum → Bool
  | .nan => true
  | .int n => decide (n = 0)
  | .inf _ => false

/-- The expression `parseInt(req.query.x) || d`: a parameter that is absent is
`undefined`, which `parseInt` reads as the string "undefined"; a falsy result
gives the default. -/
def parseIntOr (v : Option String) (d : Int) : JsNum :=
  let n := jsParseInt (v.getD "undefined")
  if n.falsy then .int d else n

/-- The difference `a - b` of two numbers: the exact difference rounded to a
double; infinities of the same sign cancel to `NaN`. -/
def JsNum.sub : JsNum → JsNum → JsNum
  | .nan, _ => .nan
  | _, .nan => .nan
  | .int a, .int b => toDouble (a - b)
  | .int _, .inf s => .inf (!s)
  | .inf s, .int _ => .inf s
  | .inf s, .inf t => if s = t then .nan else .inf s

/-- The product `a * b` of two numbers: the exact product rounded to a double;
zero times an infinity is `NaN`. -/
def JsNum.mul : JsNum → JsNum → JsNum
  | .nan, _ => .nan
  | _, .nan => .nan
  | .int a, .int b => toDouble (a * b)
  | .int a, .inf s => if a = 0 then .nan else .inf (s != decide (a < 0))
  | .inf s, .int b => if b = 0 then .nan else .inf (s != decide (b < 0))
  | .inf s, .inf t => .inf (s != t)

/-- The ceiling of the quotient of two integers, the divisor not zero: the
quotient is brought to a positive divisor, where the ceiling is minus the
floor of the negated quotient and `/` on `Int` is the floor. -/
def ceilDiv (a b : Int) : Int :=
  if 0 < b then -((-a) / b) else -(a / (-b))

/-- The expression `Math.ceil(a / b)`.  A finite number over an infinity is
zero, over zero it is an infinity or `NaN`.  For two integers the result is the
ceiling of the exact quotient: below 2^53 the double quotient of two integers is
an integer only when the exact quotient is one, so both have the same ceiling. -/
def mathCeilDiv : JsNum → JsNum → JsNum
  | .nan, _ => .nan
  | _, .nan => .nan
  | .int a, .int b =>
    if b = 0 then (if a = 0 then .nan else .inf (decide (a < 0)))
    else .int (ceilDiv a b)
  | .int _, .inf _ => .int 0
  | .inf s, .int b => .inf (s != decide (b < 0))
  | .inf _, .inf _ => .nan

/-! ## Data model -/

/-- JSON value of a request body or of a response document.  A number is an
integer; `JSON.parse` reads it exactly when it is below 2^53 in magnitude. -/
inductive JVal where
  | null
  | bool (b : Bool)
  | num (n : Int)
  | str (s : String)
  deriving DecidableEq, Repr

/-- Flat JSON object: keys with their values, in order. -/
abbrev Obj := List (String × JVal)

/-- Modelled from the spec: the User schema of `models/User.js`, which is not
among the sources.  The fields are those of the data model: id (the ObjectId in
the form the store keeps it, 24 lower-case hexadecimal digits for Mongoose),
name, email, password, optional age, role, isActive, and createdAt
(milliseconds, set at creation). -/
structure User where
  id : String
  name : String
  email : String
  password : String
  age : Option Int
  role : String
  isActive : Bool
  createdAt : Nat
  deriving DecidableEq, Repr

/-- The collection, in insertion order.  A collection holds fewer than 2^53
records, so the count of its records is an exact number. -/
abbrev Store := List User

/-- Request body (`req.body`): the key `_id` and the six keys of the data model
that a request may write, each absent or carrying a JSON value, and the
remaining keys. -/
structure Body where
  id : Option JVal := none
  name : Option JVal := none
  email : Option JVal := none
  password : Option JVal := none
  age : Option JVal := none
  role : Option JVal := none
  isActive : Option JVal := none
  others : List (String × JVal) := []
  deriving DecidableEq, Repr

/-- Query string of the list request (`req.query`). -/
structure Query where
  page : Option String := none
  limit : Option String := none
  isActive : Option String := none
  role : Option String := none
  search : Option String := none
  deriving DecidableEq, Repr

/-- What the assignment `user[key] = value` does when the key is neither `_id`
nor one of the six schema keys.  Modelled from the spec: the data model has no
other field a request can write (createdAt is immutable), so such a key does
not change which fields `save()` writes.  The assignment does nothing more (a
plain property of the object); or it replaces a member of the document that
the handler needs, and the handler throws, either before the store is written
(the key `save`, for one) or after; or the key is an alias of `_id` (the
virtual `id`, where it has a setter) and the assignment sets the id of the
document. -/
inductive KeyEffect where
  | inert
  | throwsBeforeSave
  | throwsAfterSave
  | setsId
  deriving DecidableEq, Repr

/-- Library behaviour that the repository relies on and does not define. -/
structure Env where
  /-- The check `validator.isEmail`. -/
  isEmail : String → Bool
  /-- The sanitizer `validator.normalizeEmail`; it returns a string or `false`. -/
  normalizeEmail : String → JVal
  /-- The cast of a string to an ObjectId by Mongoose: `none` when the string
  does not cast, otherwise the id in the form the store keeps it.  The store
  compares ids after the cast, so two strings with the same cast name the same
  record. -/
  castObjectId : String → Option String
  /-- What assigning a key outside `_id` and the six schema keys does to a
  Mongoose document. -/
  otherKey : String → KeyEffect
  /-- Regular-expression engine of the database with option `i`: `none` when
  the pattern is rejected, otherwise the test "the pattern matches somewhere in
  the subject". -/
  regex : String → Option (String → Bool)

/-- Error thrown by a store call and passed to `next`. -/
inductive StoreError where
  | cast
  | validation
  | badRegex
  | badSkip
  | notFound
  | duplicateKey
  | typeError
  deriving DecidableEq, Repr

/-- One entry of `errors.array()`: the field and the message. -/
structure FieldError where
  path : String
  msg : String
  deriving DecidableEq, Repr

/-- JSON body of a response, one constructor per shape the handlers send. -/
inductive ResBody where
  /-- The list envelope: success true, count, total, page, pages, data. -/
  | list (count : Nat) (total page pages : JsNum) (data : List Obj)
  /-- Success true with one document and an optional message. -/
  | one (data : Obj) (message : Option String)
  /-- Success true, data the empty object, and a message. -/
  | done (message : String)
  /-- Success false with an error string. -/
  | failure (error : String)
  /-- Success false with the validation errors. -/
  | invalid (errors : List FieldError)
  deriving DecidableEq, Repr

/-- How a handler ends: a JSON response with its status, or `next(error)`. -/
inductive Outcome where
  | json (status : Nat) (body : ResBody)
  | next (err : StoreError)
  deriving DecidableEq, Repr

/-- User documents carried by a response body. -/
def ResBody.documents : ResBody → List Obj
  | .list _ _ _ _ data => data
  | .one data _ => [data]
  | _ => []

/-- User documents carried by the response of a handler, none after `next`. -/
def Outcome.documents : Outcome → List Obj
  | .json _ body => body.documents
  | .next _ => []

/-- Keys of a JSON object. -/
def objKeys (o : Obj) : List String := o.map Prod.fst

/-- The statement `delete o[key]`. -/
def deleteKey (key : String) (o : Obj) : Obj := o.filter (fun kv => kv.1 != key)

/-- Modelled from the spec: `user.toObject()` of the missing model, every field
of the data model under its key; an age that is unset has no key. -/
def toObject (u : User) : Obj :=
  [("_id", .str u.id), ("name", .str u.name), ("email", .str u.email),
   ("password", .str u.password)] ++
  (match u.age with
   | some a => [("age", .num a)]
   | none => []) ++
  [("role", .str u.role), ("isActive", .bool u.isActive),
   ("createdAt", .num u.createdAt)]

/-- The projection `.select('-password')`: the document without that path. -/
def selectMinus (path : String) (u : User) : Obj :=
  (toObject u).filter (fun kv => kv.1 != path)

/-! ## Validation middleware (`middleware/validation.js`)

A chain of express-validator reads one field of the body.  Its validators and
sanitizers run in the order in which they are chained, each on the value the
previous ones left; a validator that fails adds its message and the chain goes
on; a sanitizer writes its result back to the body.  A chain that starts with
`.optional()` does nothing when the field is `undefined`, that is, absent. -/

/-- The conversion express-validator applies to a value before a standard
validator or sanitizer sees it: `undefined` and `null` become the empty
string. -/
def toStr : Option JVal → String
  | none => ""
  | some .null => ""
  | some (.bool true) => "true"
  | some (.bool false) => "false"
  | some (.num n) => toString n
  | some (.str s) => s

/-- One link of a chain. -/
inductive Step where
  /-- A validator followed by `.withMessage(msg)`. -/
  | check (test : String → Bool) (msg : String)
  /-- A sanitizer. -/
  | sanitize (f : String → JVal)

/-- Runs the links in order on the current value of the field; returns the
messages of the validators that failed and the value left in the body. -/
def runSteps (path : String) : List Step → Option JVal → List FieldError × Option JVal
  | [], v => ([], v)
  | .check test msg :: rest, v =>
    let r := runSteps path rest v
    if test (toStr v) then r else (⟨path, msg⟩ :: r.1, r.2)
  | .sanitize f :: rest, v => runSteps path rest (some (f (toStr v)))

/-- Runs a chain on a field; `optional` is whether it starts with `.optional()`. -/
def runChain (optional : Bool) (path : String) (steps : List Step)
    (v : Option JVal) : List FieldError × Option JVal :=
  if optional && v.isNone then ([], v) else runSteps path steps v

/-- Length counted by `validator.isLength`: code points, variation selectors
U+FE0E and U+FE0F not counted. -/
def validatorLength (s : String) : Nat :=
  s.length - (s.toList.filter (fun c => c.toNat == 0xFE0E || c.toNat == 0xFE0F)).length

/-- The validator `isLength` with a minimum and an optional maximum. -/
def isLength (min : Nat) (max : Option Nat) (s : String) : Bool :=
  let len := validatorLength s
  decide (min ≤ len) && (match max with
    | some m => decide (len ≤ m)
    | none => true)

/-- The validator `notEmpty`: the string has a character. -/
def notEmpty (s : String) : Bool := s.length != 0

/-- Removes the white space at the end of a list of characters. -/
def dropTrailingWhitespace (cs : List Char) : List Char :=
  (cs.reverse.dropWhile isJsWhitespace).reverse

/-- The sanitizer `trim` of validator.js: white space removed at both ends. -/
def trim (s : String) : String :=
  String.mk (dropTrailingWhitespace (s.toList.dropWhile isJsWhitespace))

/-- The pattern `/^(?=.*[a-z])(?=.*[A-Z])(?=.*\d)/`: before the first line
terminator there are a lowercase letter, an uppercase letter and a digit. -/
def passwordPattern (s : String) : Bool :=
  let line := s.toList.takeWhile (fun c => !isLineTerminator c)
  line.any (fun c => decide ('a' ≤ c ∧ c ≤ 'z')) &&
  line.any (fun c => decide ('A' ≤ c ∧ c ≤ 'Z')) &&
  line.any (fun c => decide ('0' ≤ c ∧ c ≤ '9'))

/-- Reads `[-+]?[0-9]+`, the syntax `validator.isInt` accepts by default;
`none` when the string is not of that form. -/
def readInt (s : String) : Option Int :=
  let (sign, digits) := splitSign s.toList
  if digits.isEmpty || !digits.all (fun c => (digitValue 10 c).isSome) then none
  else some (sign * (digitsToNat 10 (leadingDigits 10 digits) : Int))

/-- The validator `isInt` with a minimum and a maximum. -/
def isInt (min max : Int) (s : String) : Bool :=
  match readInt s with
  | some n => decide (min ≤ n) && decide (n ≤ max)
  | none => false

/-- The validator `isIn`. -/
def isIn (values : List String) (s : String) : Bool := values.contains s

/-- The validator `isBoolean` in its default, strict form. -/
def isBoolean (s : String) : Bool := ["true", "false", "1", "0"].contains s

/-- The chains of `validateUser`, in order: field, optional flag, links. -/
def validateUserChains (env : Env) : List (String × Bool × List Step) :=
  [("name", false,
      [.check notEmpty "Name is required",
       .check (isLength 2 (some 50)) "Name must be between 2 and 50 characters",
       .sanitize (fun s => .str (trim s))]),
   ("email", false,
      [.check env.isEmail "Please enter a valid email",
       .sanitize env.normalizeEmail]),
   ("password", false,
      [.check (isLength 6 none) "Password must be at least 6 characters long",
       .check passwordPattern
         "Password must contain at least one lowercase letter, one uppercase letter, and one number"]),
   ("age", true,
      [.check (isInt 0 120) "Age must be a number between 0 and 120"]),
   ("role", true,
      [.check (isIn ["user", "admin"]) "Role must be either user or admin"])]

/-- The chains of `validateUserUpdate`, in order. -/
def validateUserUpdateChains (env : Env) : List (String × Bool × List Step) :=
  [("name", true,
      [.check (isLength 2 (some 50)) "Name must be between 2 and 50 characters",
       .sanitize (fun s => .str (trim s))]),
   ("email", true,
      [.check env.isEmail "Please enter a valid email",
       .sanitize env.normalizeEmail]),
   ("age", true,
      [.check (isInt 0 120) "Age must be a number between 0 and 120"]),
   ("role", true,
      [.check (isIn ["user", "admin"]) "Role must be either user or admin"]),
   ("isActive", true,
      [.check isBoolean "isActive must be a boolean value"])]

/-- Value of a key of the body (`req.body[key]`), `none` when `undefined`. -/
def Body.get (b : Body) (key : String) : Option JVal :=
  if key = "_id" then b.id
  else if key = "name" then b.name
  else if key = "email" then b.email
  else if key = "password" then b.password
  else if key = "age" then b.age
  else if key = "role" then b.role
  else if key = "isActive" then b.isActive
  else b.others.lookup key

/-- Writes the value a chain left for its field back to the body.  The chains
of this file name only the six schema keys. -/
def Body.put (b : Body) (key : String) (v : Option JVal) : Body :=
  if key = "name" then { b with name := v }
  else if key = "email" then { b with email := v }
  else if key = "password" then { b with password := v }
  else if key = "age" then { b with age := v }
  else if key = "role" then { b with role := v }
  else if key = "isActive" then { b with isActive := v }
  else b

/-- Runs the chains of a validation array one after the other: the errors in
order, and the body with the sanitized values. -/
def runChains : List (String × Bool × List Step) → Body → List FieldError × Body
  | [], b => ([], b)
  | (path, optional, steps) :: rest, b =>
    let r := runChain optional path steps (b.get path)
    let r2 := runChains rest (b.put path r.2)
    (r.1 ++ r2.1, r2.2)

/-- The middleware array `validateUser`. -/
def validateUser (env : Env) (b : Body) : List FieldError × Body :=
  runChains (validateUserChains env) b

/-- The middleware array `validateUserUpdate`. -/
def validateUserUpdate (env : Env) (b : Body) : List FieldError × Body :=
  runChains (validateUserUpdateChains env) b

/-- The middleware `handleValidationErrors`: with errors it answers 400 and the
handler is not called (`some` response); with none it calls `next()`. -/
def handleValidationErrors (errors : List FieldError) : Option Outcome :=
  if !errors.isEmpty then some (.json 400 (.invalid errors)) else none

/-! ## The store (Mongoose model `User`) -/

/-- Modelled from the spec: cast of a body value to a string field of the
missing schema.  Numbers and booleans are written out; null is refused, the
string fields of the data model having no null. -/
def castString : JVal → Option String
  | .str s => some s
  | .num n => some (toString n)
  | .bool true => some "true"
  | .bool false => some "false"
  | .null => none

/-- Modelled from the spec: cast of a body value to the optional integer field
`age` of the missing schema.  Null and the empty string unset the field; a
string is read as an integer. -/
def castNumber : JVal → Option (Option Int)
  | .null => some none
  | .num n => some (some n)
  | .bool true => some (some 1)
  | .bool false => some (some 0)
  | .str s => if s = "" then some none else (readInt s).map some

/-- Modelled from the spec: cast of a body value to the boolean field
`isActive` of the missing schema, with the values Mongoose converts. -/
def castBoolean : JVal → Option Bool
  | .bool b => some b
  | .num n => if n = 1 then some true else if n = 0 then some false else none
  | .str s =>
    if ["true", "1", "yes"].contains s then some true
    else if ["false", "0", "no"].contains s then some false
    else none
  | .null => none

/-- Cast of a body value to the `_id` of a document: the value written out and
cast to an ObjectId; null is refused. -/
def castId (env : Env) : JVal → Option String
  | .null => none
  | v => env.castObjectId (toStr (some v))

/-- The keys of the body that are paths of a document. -/
def pathKeys : List String :=
  ["_id", "name", "email", "password", "age", "role", "isActive"]

/-- The other keys of the body, with their values.  The keys of an object are
distinct, so an entry of `others` under a path key is no entry of the object. -/
def Body.otherEntries (b : Body) : List (String × JVal) :=
  b.others.filter (fun kv => !pathKeys.contains kv.1)

/-- The values the body gives under the keys that are aliases of `_id`. -/
def aliasValues (env : Env) (b : Body) : List JVal :=
  (b.otherEntries.filter (fun kv => env.otherKey kv.1 == .setsId)).map (fun kv => kv.2)

/-- The value the body gives for the id of the document, if it gives one:
under an alias of `_id`, or else under `_id`. -/
def Body.idValue (env : Env) (b : Body) : Option JVal :=
  match (aliasValues env b).getLast? with
  | some v => some v
  | none => b.id

/-- Modelled from the spec: the document `User.create(req.body)` builds.  The
id is the one the body gives when it gives one, otherwise the fresh id of the
store; the store gives the creation time; role defaults to "user" and isActive
to true; name, email and password are required; keys outside the data model
are not stored. -/
def newDocument (env : Env) (b : Body) (newId : String) (now : Nat) : Option User := do
  let id ← match b.idValue env with
    | some v => castId env v
    | none => some newId
  let name ← b.name.bind castString
  let email ← b.email.bind castString
  let password ← b.password.bind castString
  let age ← match b.age with
    | some v => castNumber v
    | none => some none
  let role ← match b.role with
    | some v => castString v
    | none => some "user"
  let isActive ← match b.isActive with
    | some v => castBoolean v
    | none => some true
  some { id := id, name := name, email := email, password := password,
         age := age, role := role, isActive := isActive, createdAt := now }

/-- The insertion of a new document: refused when its id is taken. -/
def insertDocument (s : Store) (u : User) : Except StoreError Store :=
  if s.any (fun v => v.id == u.id) then .error .duplicateKey else .ok (s ++ [u])

/-- The keys of a body that are paths of a document a request can write. -/
inductive Path where
  | id
  | name
  | email
  | password
  | age
  | role
  | isActive
  deriving DecidableEq, Repr

/-- Modelled from the spec: the assignment `user[key] = value` on a document of
the missing model, for `_id` and the six schema keys; `none` when the value does
not cast, which makes the following `save()` reject. -/
def assignField (env : Env) (u : User) : Path → JVal → Option User
  | .id, v => (castId env v).map (fun x => { u with id := x })
  | .name, v => (castString v).map (fun x => { u with name := x })
  | .email, v => (castString v).map (fun x => { u with email := x })
  | .password, v => (castString v).map (fun x => { u with password := x })
  | .age, v => (castNumber v).map (fun x => { u with age := x })
  | .role, v => (castString v).map (fun x => { u with role := x })
  | .isActive, v => (castBoolean v).map (fun x => { u with isActive := x })

/-- The keys of the body that are paths of the document, with their values
(`Object.keys(req.body)`); a key that is present is never `undefined`. -/
def Body.entries (b : Body) : List (Path × JVal) :=
  (b.id.map (fun v => (Path.id, v))).toList ++
  (b.name.map (fun v => (Path.name, v))).toList ++
  (b.email.map (fun v => (Path.email, v))).toList ++
  (b.password.map (fun v => (Path.password, v))).toList ++
  (b.age.map (fun v => (Path.age, v))).toList ++
  (b.role.map (fun v => (Path.role, v))).toList ++
  (b.isActive.map (fun v => (Path.isActive, v))).toList

/-- The assignments of the loop under the keys that are aliases of `_id`. -/
def aliasEntries (env : Env) (b : Body) : List (Path × JVal) :=
  (aliasValues env b).map (fun v => (Path.id, v))

/-- Whether the other keys of the body make the handler throw: before the
store is written when one of them has that effect, otherwise after it when one
has that effect, otherwise not at all (`inert`). -/
def otherEffect (env : Env) (b : Body) : KeyEffect :=
  let effects := b.otherEntries.map (fun kv => env.otherKey kv.1)
  if effects.contains .throwsBeforeSave then .throwsBeforeSave
  else if effects.contains .throwsAfterSave then .throwsAfterSave
  else .inert

/-- The loop `Object.keys(req.body).forEach(key => user[key] = req.body[key])`
on the assignments that change the document. -/
def assignAll (env : Env) (u : User) : List (Path × JVal) → Option User
  | [] => some u
  | (key, v) :: rest => (assignField env u key v).bind (fun u2 => assignAll env u2 rest)

/-- The call `User.findById(id)`: a cast error when the id is no ObjectId,
otherwise the record whose id is the cast id, if there is one. -/
def findById (env : Env) (s : Store) (id : String) : Except StoreError (Option User) :=
  match env.castObjectId id with
  | none => .error .cast
  | some key => .ok (s.find? (fun u => u.id == key))

/-- What `save()` writes to the record it addresses: the fields of the
document that differ from what was loaded. -/
def writeModified (loaded doc stored : User) : User :=
  { stored with
    name := if doc.name = loaded.name then stored.name else doc.name
    email := if doc.email = loaded.email then stored.email else doc.email
    password := if doc.password = loaded.password then stored.password else doc.password
    age := if doc.age = loaded.age then stored.age else doc.age
    role := if doc.role = loaded.role then stored.role else doc.role
    isActive := if doc.isActive = loaded.isActive then stored.isActive else doc.isActive }

/-- The call `user.save()` on a document that was loaded as `loaded` and is now
`doc`.  With nothing modified nothing is written.  Otherwise the modified
fields are written to the record whose id is the `_id` the document has now,
and the call throws when there is no such record. -/
def save (s : Store) (loaded doc : User) : Except StoreError Store :=
  if doc = loaded then .ok s
  else if s.any (fun v => v.id == doc.id) then
    .ok (s.map (fun v => if v.id = doc.id then writeModified loaded doc v else v))
  else .error .notFound

/-- The call `User.findByIdAndDelete(id)`: one record with the cast id is
removed. -/
def findByIdAndDelete (env : Env) (s : Store) (id : String) : Except StoreError Store :=
  match env.castObjectId id with
  | none => .error .cast
  | some key => .ok (s.eraseP (fun u => u.id == key))

/-- Filter object the list handler builds. -/
structure Filter where
  isActive : Option Bool := none
  role : Option String := none
  search : Option String := none
  deriving DecidableEq, Repr

/-- Whether a record satisfies the filter, `test` being the compiled search
pattern: the conjunction of the supplied conditions, the search being a
disjunction over name and email. -/
def Filter.accepts (f : Filter) (test : String → Bool) (u : User) : Bool :=
  (match f.isActive with
   | some a => u.isActive == a
   | none => true) &&
  (match f.role with
   | some r => u.role == r
   | none => true) &&
  (match f.search with
   | some _ => test u.name || test u.email
   | none => true)

/-- Compiles the search pattern of a filter; an error when the engine rejects
it. -/
def Filter.compile (env : Env) (f : Filter) : Except StoreError (String → Bool) :=
  match f.search with
  | none => .ok (fun _ => true)
  | some p =>
    match env.regex p with
    | some test => .ok test
    | none => .error .badRegex

/-- The records a query with this filter selects, in the order of
`.sort({createdAt: -1})`: newest first; records created at the same time keep
their insertion order. -/
def matching (f : Filter) (test : String → Bool) (s : Store) : List User :=
  (s.filter (f.accepts test)).insertionSort (fun a b => b.createdAt ≤ a.createdAt)

/-- Largest 64-bit integer, the bound of the counts the server reads. -/
def int64Max : Nat := 2 ^ 63 - 1

/-- Number of records `.skip(n)` passes over.  The server reads the number as
a 64-bit integer, `NaN` as zero and a number beyond the range as the bound,
and rejects a negative one. -/
def skipCount : JsNum → Except StoreError Nat
  | .nan => .ok 0
  | .inf true => .error .badSkip
  | .inf false => .ok int64Max
  | .int k => if k < 0 then .error .badSkip else .ok (min k.toNat int64Max)

/-- Number of records `.limit(n)` lets through, `none` for all of them.  The
driver sends a negative limit as its absolute value; the server reads the
number as a 64-bit integer as for skip, and zero is no limit. -/
def limitCount : JsNum → Option Nat
  | .nan => none
  | .inf _ => some int64Max
  | .int k => if k = 0 then none else some (min k.natAbs int64Max)

/-- The window `.skip(skip).limit(limit)` on the sorted records. -/
def window (skip limit : JsNum) (docs : List User) : Except StoreError (List User) :=
  match skipCount skip with
  | .error e => .error e
  | .ok n =>
    .ok (match limitCount limit with
      | none => docs.drop n
      | some m => (docs.drop n).take m)

/-- The query `User.find(filter).select('-password').sort(..).skip(..).limit(..)`. -/
def find (env : Env) (s : Store) (f : Filter) (skip limit : JsNum) :
    Except StoreError (List Obj) := do
  let test ← f.compile env
  let docs ← window skip limit (matching f test s)
  pure (docs.map (selectMinus "password"))

/-- The call `User.countDocuments(filter)`. -/
def countDocuments (env : Env) (s : Store) (f : Filter) : Except StoreError Nat := do
  let test ← f.compile env
  pure (s.filter (f.accepts test)).length

/-! ## Route handlers (`routes/users.js`)

Every handler is wrapped in `try { .. } catch (error) { next(error) }`: an error
of a store call ends the handler in `Outcome.next`. -/

/-- The filter object of the list handler: `isActive` when the parameter is
defined, compared with the string "true"; `role` and `search` when the
parameter is truthy, that is, a string with a character. -/
def buildFilter (q : Query) : Filter :=
  { isActive := q.isActive.map (fun v => v == "true")
    role := q.role.bind (fun v => if v = "" then none else some v)
    search := q.search.bind (fun v => if v = "" then none else some v) }

/-- Page the list handler uses: `parseInt(req.query.page) || 1`. -/
def pageOf (q : Query) : JsNum := parseIntOr q.page 1

/-- Limit the list handler uses: `parseInt(req.query.limit) || 10`. -/
def limitOf (q : Query) : JsNum := parseIntOr q.limit 10

/-- Skip the list handler uses: `(page - 1) * limit`. -/
def skipOf (q : Query) : JsNum := ((pageOf q).sub (.int 1)).mul (limitOf q)

/-- Handler of `GET /api/users`. -/
def listUsers (env : Env) (s : Store) (q : Query) : Outcome :=
  let page := pageOf q
  let limit := limitOf q
  let skip := skipOf q
  let filter := buildFilter q
  match find env s filter skip limit with
  | .error e => .next e
  | .ok users =>
    match countDocuments env s filter with
    | .error e => .next e
    | .ok count =>
      let total := toDouble count
      .json 200 (.list users.length total page (mathCeilDiv total limit) users)

/-- Handler of `GET /api/users/:id`. -/
def getUser (env : Env) (s : Store) (id : String) : Outcome :=
  match findById env s id with
  | .error e => .next e
  | .ok none => .json 404 (.failure "User not found")
  | .ok (some user) => .json 200 (.one (selectMinus "password" user) none)

/-- Route `POST /api/users`: `validateUser`, `handleValidationErrors`, then the
handler.  `newId` and `now` are the id and the creation time the store gives
the new record. -/
def createUser (env : Env) (s : Store) (body : Body) (newId : String) (now : Nat) :
    Outcome × Store :=
  let v := validateUser env body
  match handleValidationErrors v.1 with
  | some response => (response, s)
  | none =>
    match newDocument env v.2 newId now with
    | none => (.next .validation, s)
    | some user =>
      match insertDocument s user with
      | .error e => (.next e, s)
      | .ok s2 => (.json 201 (.one (deleteKey "password" (toObject user)) none), s2)

/-- Route `PUT /api/users/:id`: `validateUserUpdate`, `handleValidationErrors`,
then the handler: the lookup, the loop over the keys of the body, `save()`, and
the answer with the document as it is in memory. -/
def updateUser (env : Env) (s : Store) (id : String) (body : Body) : Outcome × Store :=
  let v := validateUserUpdate env body
  match handleValidationErrors v.1 with
  | some response => (response, s)
  | none =>
    match findById env s id with
    | .error e => (.next e, s)
    | .ok none => (.json 404 (.failure "User not found"), s)
    | .ok (some user) =>
      if otherEffect env v.2 = .throwsBeforeSave then (.next .typeError, s)
      else
        match assignAll env user (v.2.entries ++ aliasEntries env v.2) with
        | none => (.next .validation, s)
        | some user2 =>
          match save s user user2 with
          | .error e => (.next e, s)
          | .ok s2 =>
            if otherEffect env v.2 = .throwsAfterSave then (.next .typeError, s2)
            else (.json 200 (.one (deleteKey "password" (toObject user2)) none), s2)

/-- Handler of `DELETE /api/users/:id`, the soft delete. -/
def deactivateUser (env : Env) (s : Store) (id : String) : Outcome × Store :=
  match findById env s id with
  | .error e => (.next e, s)
  | .ok none => (.json 404 (.failure "User not found"), s)
  | .ok (some user) =>
    match save s user { user with isActive := false } with
    | .error e => (.next e, s)
    | .ok s2 => (.json 200 (.done "User deactivated successfully"), s2)

/-- Handler of `DELETE /api/users/:id/permanent`. -/
def deleteUser (env : Env) (s : Store) (id : String) : Outcome × Store :=
  match findById env s id with
  | .error e => (.next e, s)
  | .ok none => (.json 404 (.failure "User not found"), s)
  | .ok (some _) =>
    match findByIdAndDelete env s id with
    | .error e => (.next e, s)
    | .ok s2 => (.json 200 (.done "User permanently deleted"), s2)

/-- Handler of `PATCH /api/users/:id/activate`. -/
def activateUser (env : Env) (s : Store) (id : String) : Outcome × Store :=
  match findById env s id with
  | .error e => (.next e, s)
  | .ok none => (.json 404 (.failure "User not found"), s)
  | .ok (some user) =>
    let user2 := { user with isActive := true }
    match save s user user2 with
    | .error e => (.next e, s)
    | .ok s2 =>
      (.json 200 (.one (deleteKey "password" (toObject user2))
          (some "User activated successfully")), s2)

/-! ## A concrete environment

A regular-expression engine for the patterns made of ordinary characters and
`.`, on which every engine of the PCRE family agrees; every other pattern is
refused by this engine; it is used below only on patterns of that form and on
the pattern `(`, which every engine refuses.
Letters are compared after `Char.toLower`, the folding of the ASCII letters. -/

/-- The characters with a special meaning in a regular expression. -/
def regexMetaChars : List Char :=
  ['\\', '^', '$', '.', '|', '?', '*', '+', '(', ')', '[', ']', '{', '}']

/-- Whether one pattern character matches one subject character, ignoring
case: `.` matches all but a line feed, another character matches itself. -/
def charMatches (p c : Char) : Bool :=
  if p = '.' then c != '\n' else p.toLower == c.toLower

/-- Whether the pattern matches at the start of the subject. -/
def matchesHere : List Char → List Char → Bool
  | [], _ => true
  | _ :: _, [] => false
  | p :: ps, c :: cs => charMatches p c && matchesHere ps cs

/-- Whether the pattern matches at some position of the subject. -/
def matchesSomewhere (ps : List Char) : List Char → Bool
  | [] => matchesHere ps []
  | c :: cs => matchesHere ps (c :: cs) || matchesSomewhere ps cs

/-- The engine: patterns of ordinary characters and `.` only. -/
def simpleRegex (pattern : String) : Option (String → Bool) :=
  if pattern.toList.all (fun c => c = '.' || !regexMetaChars.contains c) then
    some (fun subject => matchesSomewhere pattern.toList subject.toList)
  else none

/-- The cast of the sample environment: a string of 24 hexadecimal digits casts
to its lower-case form, no other string casts. -/
def sampleCast (s : String) : Option String :=
  if s.length == 24 && s.toList.all (fun c => (digitValue 16 c).isSome) then
    some (String.mk (s.toList.map Char.toLower))
  else none

/-- An environment for evaluating the handlers: the engine and the cast above;
of the keys that are no paths it knows `save`, which makes the handler throw
before the store is written, and `id`, an alias of `_id`, and it takes every
other one as inert, so it is used below only on bodies without such other
keys; the email functions are stand-ins (a string with an `@`; lowercased). -/
def sampleEnv : Env where
  isEmail := fun s => s.toList.contains '@'
  normalizeEmail := fun s => .str (String.mk (s.toList.map Char.toLower))
  castObjectId := sampleCast
  otherKey := fun key =>
    if key = "save" then .throwsBeforeSave else if key = "id" then .setsId else .inert
  regex := simpleRegex

/-! ## Sample data -/

/-- An id the sample environment accepts. -/
def idAnn : String := "64b7f0c2a1b2c3d4e5f60718"

/-- A second id the sample environment accepts. -/
def idBob : String := "64b7f0c2a1b2c3d4e5f60719"

/-- A third id the sample environment accepts, of no record below. -/
def idNobody : String := "64b7f0c2a1b2c3d4e5f60700"

/-- An active record. -/
def ann : User :=
  { id := idAnn, name := "abc", email := "x@y.z", password := "Abcdef1",
    age := some 30, role := "user", isActive := true, createdAt := 1 }

/-- An inactive record. -/
def bob : User :=
  { id := idBob, name := "Bob", email := "bob@example.com", password := "Abcdef2",
    age := none, role := "admin", isActive := false, createdAt := 2 }

/-- A create body whose password breaks both password rules. -/
def weakPasswordBody : Body :=
  { name := some (.str "Ann Lee")
    email := some (.str "ann@b.co")
    password := some (.str "abc") }

/-- A create body whose name has one letter between two spaces. -/
def paddedNameBody : Body :=
  { name := some (.str " a ")
    email := some (.str "a@b.co")
    password := some (.str "Abcdef1") }

/-- A create body whose name is three spaces. -/
def blankNameBody : Body :=
  { name := some (.str "   ")
    email := some (.str "a@b.co")
    password := some (.str "Abcdef1") }

/-- An update body that names the id of the second record. -/
def redirectBody : Body :=
  { id := some (.str idBob)
    name := some (.str "Zed") }

/-- A query string value of 400 nines. -/
def manyNines : String := String.mk (List.replicate 400 '9')

/-- A store of two records. -/
def sampleStore : Store := [ann, bob]

/-- The filter of the spec for a search string: the text contains the string as
a substring, letters compared without regard to case, `fold` being the map
that sends the letters that differ only in case to one of them.  This
definition follows the words of the spec; the code's test is `Env.regex`. -/
def containsIgnoringCase (fold : Char → Char) (text s : String) : Bool :=
  decide ((s.toList.map fold) <:+: (text.toList.map fold))

/-- What the claim on the search assumes of the engine of the database: a
pattern with no metacharacter compiles, and it matches exactly the texts that
contain it, letters compared after `fold`. -/
def literalEngine (regex : String → Option (String → Bool)) (fold : Char → Char) : Prop :=
  ∀ pattern : String, (∀ c ∈ pattern.toList, c ∉ regexMetaChars) →
    ∃ test, regex pattern = some test ∧
      ∀ text, test text = containsIgnoringCase fold text pattern

/-- The store with each record of the id of `u` replaced by `u`: what a
`save()` of a document leaves when the document has kept its id and the store
holds it. -/
def replaceRecord (s : Store) (u : User) : Store :=
  s.map (fun v => if v.id = u.id then u else v)

/-- The store without the first record of the given id. -/
def removeRecord (s : Store) (key : String) : Store :=
  s.eraseP (fun u => u.id == key)

/-- Invariant of the store: the ids are distinct and each is an ObjectId in the
form the store keeps, which casts to itself. -/
def wellFormed (env : Env) (s : Store) : Prop :=
  (s.map (fun u => u.id)).Nodup ∧ ∀ u ∈ s, env.castObjectId u.id = some u.id

/-! ## Page and limit -/

theorem readMathInt_undefined : readMathInt "undefined" = none := by decide

theorem jsParseInt_undefined : jsParseInt "undefined" = .nan := by decide

theorem toDouble_exact (n : Int) (h : n.natAbs ≤ maxExact) : toDouble n = .int n := by
  simp [toDouble, h]

theorem bitLengthAux_pow_le (fuel : Nat) :
    ∀ m : Nat, 0 < m → 2 ^ (bitLengthAux fuel m - 1) ≤ m := by
  induction fuel with
  | zero =>
    intro m hm
    simpa [bitLengthAux] using hm
  | succ fuel ih =>
    intro m hm
    have hm0 : m ≠ 0 := by omega
    simp only [bitLengthAux, hm0, if_false, Nat.add_sub_cancel]
    by_cases hhalf : m / 2 = 0
    · have hz : bitLengthAux fuel (m / 2) = 0 := by
        rw [hhalf]
        cases fuel <;> simp [bitLengthAux]
      rw [hz]
      simpa using hm
    · have h := ih (m / 2) (by omega)
      by_cases hb : bitLengthAux fuel (m / 2) = 0
      · rw [hb]
        simpa using hm
      · have hsplit : bitLengthAux fuel (m / 2) = (bitLengthAux fuel (m / 2) - 1) + 1 := by
          omega
        rw [hsplit, Nat.pow_succ]
        omega

theorem roundToPrecision_pos (m : Nat) (hm : 0 < m) : 0 < roundToPrecision m := by
  unfold roundToPrecision
  split_ifs with h
  · exact hm
  · have hunit : 0 < 2 ^ (bitLength m - 53) := pow_pos (by decide) _
    have hle : 2 ^ (bitLength m - 53) ≤ m :=
      le_trans (Nat.pow_le_pow_right (by decide) (by unfold bitLength; omega))
        (bitLengthAux_pow_le m m hm)
    have hq : 0 < m / 2 ^ (bitLength m - 53) := Nat.div_pos hle hunit
    simp only
    split_ifs
    · exact Nat.mul_pos (by omega) hunit
    · exact Nat.mul_pos hq hunit

theorem toDouble_falsy (n : Int) (hn : n ≠ 0) : (toDouble n).falsy = false := by
  have hpos : 0 < roundToPrecision n.natAbs :=
    roundToPrecision_pos _ (Int.natAbs_pos.mpr hn)
  simp only [toDouble]
  split_ifs
  · simpa [JsNum.falsy] using hn
  · rfl
  · simp only [JsNum.falsy, decide_eq_false_iff_not]
    omega
  · simp only [JsNum.falsy, decide_eq_false_iff_not]
    omega

theorem toDouble_isNonneg (n : Int) (hn : 0 ≤ n) : (toDouble n).isNonneg = true := by
  have hneg : ¬ n < 0 := by omega
  simp only [toDouble, hneg, if_false, decide_False]
  split_ifs
  · simpa [JsNum.isNonneg] using hn
  · rfl
  · simp [JsNum.isNonneg]

theorem parseIntOr_falsy (v : Option String) (d : Int) (hd : d ≠ 0) :
    (parseIntOr v d).falsy = false := by
  unfold parseIntOr
  simp only
  split_ifs with h
  · simpa [JsNum.falsy] using hd
  · simpa using h

theorem parseIntOr_none (d : Int) : parseIntOr none d = .int d := by
  simp [parseIntOr, jsParseInt_undefined, JsNum.falsy]

theorem parseIntOr_nan (s : String) (d : Int) (h : readMathInt s = none) :
    parseIntOr (some s) d = .int d := by
  simp [parseIntOr, jsParseInt, h, JsNum.falsy]

theorem parseIntOr_zero (s : String) (d : Int) (h : readMathInt s = some 0) :
    parseIntOr (some s) d = .int d := by
  have h0 : toDouble 0 = .int 0 := by decide
  simp [parseIntOr, jsParseInt, h, h0, JsNum.falsy]

theorem parseIntOr_value (s : String) (d n : Int) (h : readMathInt s = some n)
    (hn : n ≠ 0) : parseIntOr (some s) d = toDouble n := by
  simp [parseIntOr, jsParseInt, h, toDouble_falsy n hn]

theorem skip_of_integers (a b : Int) (ha : 0 < a) (hb : 0 < b) :
    (((JsNum.int a).sub (.int 1)).mul (.int b)).isNonneg = true ∧
    ((a - 1) * b ≤ maxExact →
      ((JsNum.int a).sub (.int 1)).mul (.int b) = .int ((a - 1) * b)) := by
  have hsub : (JsNum.int a).sub (.int 1) = toDouble (a - 1) := rfl
  have hnn := toDouble_isNonneg (a - 1) (by omega)
  constructor
  · rw [hsub]
    cases hx : toDouble (a - 1) with
    | nan => simp [hx, JsNum.isNonneg] at hnn
    | inf negative =>
      rw [hx] at hnn
      have hbz : b ≠ 0 := by omega
      have hbn : ¬ b < 0 := by omega
      simpa [JsNum.mul, JsNum.isNonneg, hbz, hbn] using hnn
    | int k =>
      rw [hx] at hnn
      simp only [JsNum.isNonneg, decide_eq_true_eq] at hnn
      exact toDouble_isNonneg (k * b) (Int.mul_nonneg hnn (by omega))
  · intro hle
    have h1 : (a - 1).natAbs ≤ maxExact := by
      have : a - 1 ≤ (a - 1) * b := by nlinarith
      omega
    have h2 : ((a - 1) * b).natAbs ≤ maxExact := by
      have : 0 ≤ (a - 1) * b := Int.mul_nonneg (by omega) (by omega)
      omega
    rw [hsub, toDouble_exact _ h1]
    exact toDouble_exact _ h2

set_option maxRecDepth 100000 in
/-- C10 (counterexample): with `page=-3` the handler uses page -3, with
`limit=-5` it uses limit -5, and with `page=2&limit=-5` the skip is -5: page and
limit are not always positive and skip can be negative.  With
`page=9007199254740993` the page is 9007199254740992, the nearest double, and
with a limit of 400 nines the limit is the infinity, no integer, and the skip
of page 1 is `NaN`. -/
theorem page_limit_negative :
    pageOf { page := some "-3" } = .int (-3) ∧ limitOf { limit := some "-5" } = .int (-5) ∧
    skipOf { page := some "2", limit := some "-5" } = .int (-5) ∧
    pageOf { page := some "9007199254740993" } = .int 9007199254740992 ∧
    limitOf { limit := some manyNines } = .inf false ∧
    skipOf { limit := some manyNines } = .nan := by decide

/-- C10 (amended): page and limit are never zero nor `NaN`; they are 1 and 10
when the parameter is absent, is not numeric or is zero, and otherwise the
double nearest to the integer that `parseInt` reads, which is that integer,
whatever its sign, up to 2^53 in magnitude; when page and limit are positive
integers the skip is not negative, and it is `(page - 1) * limit` when that
product is at most 2^53. -/
theorem page_limit_defaults (q : Query) :
    (pageOf q).falsy = false ∧ (limitOf q).falsy = false ∧
    (q.page = none → pageOf q = .int 1) ∧ (q.limit = none → limitOf q = .int 10) ∧
    (∀ s, q.page = some s → readMathInt s = none ∨ readMathInt s = some 0 →
      pageOf q = .int 1) ∧
    (∀ s, q.limit = some s → readMathInt s = none ∨ readMathInt s = some 0 →
      limitOf q = .int 10) ∧
    (∀ s n, q.page = some s → readMathInt s = some n → n ≠ 0 →
      pageOf q = toDouble n ∧ (n.natAbs ≤ maxExact → pageOf q = .int n)) ∧
    (∀ s n, q.limit = some s → readMathInt s = some n → n ≠ 0 →
      limitOf q = toDouble n ∧ (n.natAbs ≤ maxExact → limitOf q = .int n)) ∧
    (∀ a b, pageOf q = .int a → limitOf q = .int b → 0 < a → 0 < b →
      (skipOf q).isNonneg = true ∧
      ((a - 1) * b ≤ maxExact → skipOf q = .int ((a - 1) * b))) := by
  refine ⟨parseIntOr_falsy _ _ (by decide), parseIntOr_falsy _ _ (by decide),
    ?_, ?_, ?_, ?_, ?_, ?_, ?_⟩
  · intro h
    simp [pageOf, h, parseIntOr_none]
  · intro h
    simp [limitOf, h, parseIntOr_none]
  · intro s hs h
    rcases h with h | h
    · simp [pageOf, hs, parseIntOr_nan s 1 h]
    · simp [pageOf, hs, parseIntOr_zero s 1 h]
  · intro s hs h
    rcases h with h | h
    · simp [limitOf, hs, parseIntOr_nan s 10 h]
    · simp [limitOf, hs, parseIntOr_zero s 10 h]
  · intro s n hs h hn
    have hv : pageOf q = toDouble n := by
      simp [pageOf, hs, parseIntOr_value s 1 n h hn]
    exact ⟨hv, fun hle => by rw [hv, toDouble_exact n hle]⟩
  · intro s n hs h hn
    have hv : limitOf q = toDouble n := by
      simp [limitOf, hs, parseIntOr_value s 10 n h hn]
    exact ⟨hv, fun hle => by rw [hv, toDouble_exact n hle]⟩
  · intro a b hpa hlb ha hb
    unfold skipOf
    rw [hpa, hlb]
    exact skip_of_integers a b ha hb

/-- C10 (witness): the request `page=3&limit=0x10` uses page 3 and limit 16 and
skips 32 records; the request `page=abc` uses page 1. -/
theorem page_limit_defaults_witness :
    pageOf { page := some "3", limit := some "0x10" } = .int 3 ∧
    limitOf { page := some "3", limit := some "0x10" } = .int 16 ∧
    skipOf { page := some "3", limit := some "0x10" } = .int ((3 - 1) * 16) ∧
    pageOf { page := some "abc" } = .int 1 :=
  ⟨((page_limit_defaults { page := some "3", limit := some "0x10" }).2.2.2.2.2.2.1
      "3" 3 rfl (by decide) (by decide)).2 (by decide),
   ((page_limit_defaults { page := some "3", limit := some "0x10" }).2.2.2.2.2.2.2.1
      "0x10" 16 rfl (by decide) (by decide)).2 (by decide),
   ((page_limit_defaults { page := some "3", limit := some "0x10" }).2.2.2.2.2.2.2.2
      3 16 (by decide) (by decide) (by decide) (by decide)).2 (by decide),
   (page_limit_defaults { page := some "abc" }).2.2.2.2.1 "abc" rfl (Or.inl (by decide))⟩

/-! ## Lookups -/

theorem findById_absent (env : Env) (s : Store) (id key : String)
    (hcast : env.castObjectId id = some key) (habs : ∀ u ∈ s, u.id ≠ key) :
    findById env s id = .ok none := by
  have h : s.find? (fun u => u.id == key) = none := by
    rw [List.find?_eq_none]
    intro u hu
    simpa using habs u hu
  simp [findById, hcast, h]

theorem find?_id_of_nodup (s : Store) (u : User) (hu : u ∈ s)
    (hnd : (s.map (fun v => v.id)).Nodup) :
    s.find? (fun v => v.id == u.id) = some u := by
  induction s with
  | nil => cases hu
  | cons a t ih =>
    rw [List.map_cons, List.nodup_cons] at hnd
    by_cases hau : a = u
    · subst hau
      simp
    · have hut : u ∈ t := by
        rcases List.mem_cons.mp hu with h | h
        · exact absurd h.symm hau
        · exact h
      have hne : a.id ≠ u.id := by
        intro h
        exact hnd.1 (h ▸ List.mem_map_of_mem (fun v => v.id) hut)
      have hne2 : (a.id == u.id) = false := by simpa using hne
      rw [List.find?_cons, hne2]
      exact ih hut hnd.2

theorem findById_present (env : Env) (s : Store) (u : User)
    (hwf : wellFormed env s) (hu : u ∈ s) :
    findById env s u.id = .ok (some u) := by
  simp [findById, hwf.2 u hu, find?_id_of_nodup s u hu hwf.1]

theorem handleValidationErrors_nil : handleValidationErrors [] = none := rfl

theorem handleValidationErrors_cons (e : FieldError) (es : List FieldError) :
    handleValidationErrors (e :: es) = some (.json 400 (.invalid (e :: es))) := rfl

/-! ## Not found -/

/-- C3 (counterexample): an update of an id that matches no record, with the
body `age: 200`, is answered 400 with the validation errors and not 404; and a
lookup of the id `zzz`, which is no ObjectId and matches no record, ends in
`next(error)` and not in a 404 response. -/
theorem not_found_refuted :
    updateUser sampleEnv sampleStore idNobody { age := some (.num 200) } =
      (.json 400 (.invalid [⟨"age", "Age must be a number between 0 and 120"⟩]),
        sampleStore) ∧
    (∀ u ∈ sampleStore, u.id ≠ idNobody) ∧
    getUser sampleEnv sampleStore "zzz" = .next .cast ∧
    (∀ u ∈ sampleStore, u.id ≠ "zzz") := by decide

/-- C3 (amended): for an id that casts to an ObjectId which is the id of no
record, get-by-id, soft delete, permanent delete and activate answer 404 with
the body success false, error "User not found", and so does update when its
body passes the update validation; the store is unchanged in each case. -/
theorem not_found_response (env : Env) (s : Store) (id key : String)
    (hcast : env.castObjectId id = some key) (habs : ∀ u ∈ s, u.id ≠ key) :
    getUser env s id = .json 404 (.failure "User not found") ∧
    deactivateUser env s id = (.json 404 (.failure "User not found"), s) ∧
    deleteUser env s id = (.json 404 (.failure "User not found"), s) ∧
    activateUser env s id = (.json 404 (.failure "User not found"), s) ∧
    ∀ body, (validateUserUpdate env body).1 = [] →
      updateUser env s id body = (.json 404 (.failure "User not found"), s) := by
  have h := findById_absent env s id key hcast habs
  refine ⟨?_, ?_, ?_, ?_, ?_⟩
  · simp [getUser, h]
  · simp [deactivateUser, h]
  · simp [deleteUser, h]
  · simp [activateUser, h]
  · intro body hb
    simp [updateUser, hb, handleValidationErrors_nil, h]

/-- C3 (witness): the five operations on an id of no record of the sample
store, written in upper case, the update with the body `name: "Zed"`. -/
theorem not_found_response_witness :
    (sampleEnv.castObjectId "64B7F0C2A1B2C3D4E5F60700" = some idNobody ∧
      ∀ u ∈ sampleStore, u.id ≠ idNobody) ∧
    getUser sampleEnv sampleStore "64B7F0C2A1B2C3D4E5F60700" =
      .json 404 (.failure "User not found") ∧
    deactivateUser sampleEnv sampleStore "64B7F0C2A1B2C3D4E5F60700" =
      (.json 404 (.failure "User not found"), sampleStore) ∧
    deleteUser sampleEnv sampleStore "64B7F0C2A1B2C3D4E5F60700" =
      (.json 404 (.failure "User not found"), sampleStore) ∧
    activateUser sampleEnv sampleStore "64B7F0C2A1B2C3D4E5F60700" =
      (.json 404 (.failure "User not found"), sampleStore) ∧
    updateUser sampleEnv sampleStore "64B7F0C2A1B2C3D4E5F60700" { name := some (.str "Zed") } =
      (.json 404 (.failure "User not found"), sampleStore) :=
  have h := not_found_response sampleEnv sampleStore "64B7F0C2A1B2C3D4E5F60700" idNobody
    (by decide) (by decide)
  ⟨⟨by decide, by decide⟩, h.1, h.2.1, h.2.2.1, h.2.2.2.1,
    h.2.2.2.2 { name := some (.str "Zed") } (by decide)⟩

/-! ## Passwords are not sent -/

theorem key_not_mem_deleteKey (key : String) (o : Obj) :
    key ∉ objKeys (deleteKey key o) := by
  intro h
  simp only [objKeys, deleteKey, List.mem_map, List.mem_filter] at h
  obtain ⟨kv, ⟨_, hne⟩, heq⟩ := h
  simp [heq] at hne

theorem selectMinus_eq_deleteKey (path : String) (u : User) :
    selectMinus path u = deleteKey path (toObject u) := rfl

theorem listUsers_documents (env : Env) (s : Store) (q : Query) (o : Obj)
    (h : o ∈ (listUsers env s q).documents) :
    ∃ u, o = deleteKey "password" (toObject u) := by
  unfold listUsers at h
  simp only [find, bind, Except.bind, pure, Except.pure] at h
  split at h
  · simp [Outcome.documents] at h
  · rename_i users hfind
    split at h
    · simp [Outcome.documents] at h
    · simp only [Outcome.documents, ResBody.documents] at h
      split at hfind
      · cases hfind
      · split at hfind
        · cases hfind
        · injection hfind with hfind
          subst hfind
          obtain ⟨u, _, hu⟩ := List.mem_map.mp h
          exact ⟨u, hu.symm⟩

theorem getUser_documents (env : Env) (s : Store) (id : String) (o : Obj)
    (h : o ∈ (getUser env s id).documents) :
    ∃ u, o = deleteKey "password" (toObject u) := by
  unfold getUser at h
  split at h
  · simp [Outcome.documents] at h
  · simp [Outcome.documents, ResBody.documents] at h
  · rename_i user _
    simp only [Outcome.documents, ResBody.documents, List.mem_singleton] at h
    exact ⟨user, h⟩

theorem createUser_documents (env : Env) (s : Store) (body : Body) (newId : String)
    (now : Nat) (o : Obj) (h : o ∈ (createUser env s body newId now).1.documents) :
    ∃ u, o = deleteKey "password" (toObject u) := by
  unfold createUser at h
  simp only at h
  split at h
  · rename_i response hv
    unfold handleValidationErrors at hv
    split_ifs at hv
    injection hv with hv
    subst hv
    simp [Outcome.documents, ResBody.documents] at h
  · split at h
    · simp [Outcome.documents] at h
    · rename_i user _
      split at h
      · simp [Outcome.documents] at h
      · simp only [Outcome.documents, ResBody.documents, List.mem_singleton] at h
        exact ⟨user, h⟩

theorem updateUser_documents (env : Env) (s : Store) (id : String) (body : Body)
    (o : Obj) (h : o ∈ (updateUser env s id body).1.documents) :
    ∃ u, o = deleteKey "password" (toObject u) := by
  unfold updateUser at h
  simp only at h
  split at h
  · rename_i response hv
    unfold handleValidationErrors at hv
    split_ifs at hv
    injection hv with hv
    subst hv
    simp [Outcome.documents, ResBody.documents] at h
  · split at h
    · simp [Outcome.documents] at h
    · simp [Outcome.documents, ResBody.documents] at h
    · split_ifs at h
      · simp [Outcome.documents] at h
      · split at h
        · simp [Outcome.documents] at h
        · split at h
          · simp [Outcome.documents] at h
          · simp [Outcome.documents] at h
      · split at h
        · simp [Outcome.documents] at h
        · rename_i user2 _
          split at h
          · simp [Outcome.documents] at h
          · simp only [Outcome.documents, ResBody.documents, List.mem_singleton] at h
            exact ⟨user2, h⟩

theorem activateUser_documents (env : Env) (s : Store) (id : String) (o : Obj)
    (h : o ∈ (activateUser env s id).1.documents) :
    ∃ u, o = deleteKey "password" (toObject u) := by
  unfold activateUser at h
  split at h
  · simp [Outcome.documents] at h
  · simp [Outcome.documents, ResBody.documents] at h
  · rename_i user _
    simp only at h
    split at h
    · simp [Outcome.documents] at h
    · simp only [Outcome.documents, ResBody.documents, List.mem_singleton] at h
      exact ⟨_, h⟩

/-- C4: no user document in the response of the list, get-by-id, create,
update or activate handler has the key `password`, whatever the store, the
request and its body. -/
theorem responses_without_password (env : Env) (s : Store) (q : Query) (id : String)
    (body : Body) (newId : String) (now : Nat) (o : Obj)
    (h : o ∈ (listUsers env s q).documents ∨ o ∈ (getUser env s id).documents ∨
      o ∈ (createUser env s body newId now).1.documents ∨
      o ∈ (updateUser env s id body).1.documents ∨
      o ∈ (activateUser env s id).1.documents) :
    "password" ∉ objKeys o := by
  have key : ∃ u, o = deleteKey "password" (toObject u) := by
    rcases h with h | h | h | h | h
    · exact listUsers_documents env s q o h
    · exact getUser_documents env s id o h
    · exact createUser_documents env s body newId now o h
    · exact updateUser_documents env s id body o h
    · exact activateUser_documents env s id o h
  obtain ⟨u, rfl⟩ := key
  exact key_not_mem_deleteKey "password" (toObject u)

/-- C4 (witness): the document in the answer to an update of the first sample
record whose body supplies a password has no key `password`. -/
theorem responses_without_password_witness :
    (updateUser sampleEnv sampleStore idAnn { password := some (.str "Secret99") }).1 =
      .json 200 (.one [("_id", .str idAnn), ("name", .str "abc"), ("email", .str "x@y.z"),
        ("age", .num 30), ("role", .str "user"), ("isActive", .bool true),
        ("createdAt", .num 1)] none) ∧
    "password" ∉ objKeys [("_id", .str idAnn), ("name", .str "abc"), ("email", .str "x@y.z"),
        ("age", .num 30), ("role", .str "user"), ("isActive", .bool true),
        ("createdAt", .num 1)] :=
  ⟨by decide,
   responses_without_password sampleEnv sampleStore {} idAnn
     { password := some (.str "Secret99") } idNobody 0 _
     (Or.inr (Or.inr (Or.inr (Or.inl (by decide)))))⟩

/-! ## Validation -/

/-- C6 (the code at the failing input): the update validation has no chain for
`password`.  The body `password: "abc"` passes it with no error and unchanged
in every environment, so `handleValidationErrors` calls the handler, whose loop
assigns "abc" to the password of the record it found; the create validation
answers the same password with both password messages. -/
theorem update_accepts_short_password :
    (∀ env : Env, validateUserUpdate env { password := some (.str "abc") } =
      ([], { password := some (.str "abc") })) ∧
    (∀ env : Env, handleValidationErrors
      (validateUserUpdate env { password := some (.str "abc") }).1 = none) ∧
    (∀ env : Env, assignAll env ann (Body.entries { password := some (.str "abc") }) =
      some { ann with password := "abc" }) ∧
    (validateUser sampleEnv weakPasswordBody).1 =
      [⟨"password", "Password must be at least 6 characters long"⟩,
       ⟨"password", "Password must contain at least one lowercase letter, one uppercase letter, and one number"⟩] :=
  ⟨fun _ => rfl, fun _ => rfl, fun _ => rfl, by decide⟩

/-- C7 (the code at the failing input): the name chain checks the length
before it trims.  The create body with name " a " (three characters) passes
the validation with no error, `handleValidationErrors` calls the handler, and
the name in the body handed to `User.create` is "a", of length 1; the name of
three spaces passes as well and the name handed on is empty. -/
theorem create_stores_short_name :
    validateUser sampleEnv paddedNameBody =
      ([], { paddedNameBody with name := some (.str "a") }) ∧
    handleValidationErrors (validateUser sampleEnv paddedNameBody).1 = none ∧
    validatorLength "a" = 1 ∧
    validateUser sampleEnv blankNameBody =
      ([], { blankNameBody with name := some (.str "") }) ∧
    handleValidationErrors (validateUser sampleEnv blankNameBody).1 = none := by decide

/-! ## Writes to the store -/

theorem eq_of_id_eq (s : Store) (hnd : (s.map (fun v => v.id)).Nodup) (u v : User)
    (hu : u ∈ s) (hv : v ∈ s) (h : v.id = u.id) : v = u :=
  List.inj_on_of_nodup_map hnd hv hu h

theorem replaceRecord_ids (s : Store) (u : User) :
    (replaceRecord s u).map (fun v => v.id) = s.map (fun v => v.id) := by
  unfold replaceRecord
  rw [List.map_map]
  apply List.map_congr_left
  intro v _
  by_cases h : v.id = u.id
  · simp [h]
  · simp [h]

theorem replaceRecord_self (s : Store) (u : User) (hnd : (s.map (fun v => v.id)).Nodup)
    (hu : u ∈ s) : replaceRecord s u = s := by
  unfold replaceRecord
  conv_rhs => rw [← List.map_id s]
  apply List.map_congr_left
  intro v hv
  by_cases h : v.id = u.id
  · simp [h, eq_of_id_eq s hnd u v hu hv h]
  · simp [h]

theorem mem_replaceRecord (s : Store) (u u2 : User) (hu : u ∈ s) (hid : u2.id = u.id) (v : User) :
    v ∈ replaceRecord s u2 ↔ v = u2 ∨ (v ∈ s ∧ v.id ≠ u.id) := by
  unfold replaceRecord
  rw [List.mem_map]
  constructor
  · rintro ⟨w, hw, rfl⟩
    by_cases h : w.id = u2.id
    · simp [h]
    · right
      simp only [h, if_false]
      exact ⟨hw, fun h2 => h (h2.trans hid.symm)⟩
  · rintro (rfl | ⟨hv, hne⟩)
    · exact ⟨u, hu, by simp [hid]⟩
    · exact ⟨v, hv, by simp [hid, hne]⟩

theorem wellFormed_replaceRecord (env : Env) (s : Store) (u u2 : User) (hwf : wellFormed env s)
    (hu : u ∈ s) (hid : u2.id = u.id) : wellFormed env (replaceRecord s u2) := by
  refine ⟨by rw [replaceRecord_ids]; exact hwf.1, ?_⟩
  intro v hv
  rcases (mem_replaceRecord s u u2 hu hid v).mp hv with rfl | ⟨hv, _⟩
  · rw [hid]
    exact hwf.2 u hu
  · exact hwf.2 v hv

theorem findById_replaceRecord (env : Env) (s : Store) (u u2 : User) (hwf : wellFormed env s)
    (hu : u ∈ s) (hid : u2.id = u.id) :
    findById env (replaceRecord s u2) u.id = .ok (some u2) := by
  have h := findById_present env (replaceRecord s u2) u2 (wellFormed_replaceRecord env s u u2 hwf hu hid)
    ((mem_replaceRecord s u u2 hu hid u2).mpr (Or.inl rfl))
  rwa [hid] at h

theorem mem_removeRecord (s : Store) (u : User) (hu : u ∈ s)
    (hnd : (s.map (fun v => v.id)).Nodup) (v : User) :
    v ∈ removeRecord s u.id ↔ v ∈ s ∧ v.id ≠ u.id := by
  induction s with
  | nil => cases hu
  | cons a t ih =>
    have hnd2 := hnd
    rw [List.map_cons, List.nodup_cons] at hnd2
    unfold removeRecord
    by_cases hau : a.id = u.id
    · have hp : (a.id == u.id) = true := by simpa using hau
      simp only [List.eraseP_cons, hp, cond_true]
      constructor
      · intro hv
        refine ⟨List.mem_cons_of_mem _ hv, ?_⟩
        intro h
        exact hnd2.1 (hau ▸ h ▸ List.mem_map_of_mem (fun w => w.id) hv)
      · rintro ⟨hv, hne⟩
        rcases List.mem_cons.mp hv with rfl | hv
        · exact absurd hau hne
        · exact hv
    · have hp : (a.id == u.id) = false := by simpa using hau
      simp only [List.eraseP_cons, hp, cond_false]
      have hut : u ∈ t := by
        rcases List.mem_cons.mp hu with h | h
        · exact absurd (congrArg User.id h).symm hau
        · exact h
      have ih2 := ih hut hnd2.2
      unfold removeRecord at ih2
      rw [List.mem_cons, List.mem_cons, ih2]
      constructor
      · rintro (rfl | h)
        · exact ⟨Or.inl rfl, hau⟩
        · exact ⟨Or.inr h.1, h.2⟩
      · rintro ⟨rfl | h, hne⟩
        · exact Or.inl rfl
        · exact Or.inr ⟨h, hne⟩

theorem removeRecord_sublist (s : Store) (id : String) :
    (removeRecord s id).Sublist s :=
  List.eraseP_sublist s

theorem writeModified_loaded (loaded doc : User) (hid : doc.id = loaded.id)
    (hc : doc.createdAt = loaded.createdAt) : writeModified loaded doc loaded = doc := by
  obtain ⟨i1, n1, e1, p1, a1, r1, f1, c1⟩ := loaded
  obtain ⟨i2, n2, e2, p2, a2, r2, f2, c2⟩ := doc
  simp only at hid hc
  subst hid hc
  simp only [writeModified, User.mk.injEq, true_and, and_true]
  refine ⟨?_, ?_, ?_, ?_, ?_, ?_⟩ <;> split_ifs with h <;> first | rfl | exact h.symm

theorem save_present (s : Store) (u doc : User) (hnd : (s.map (fun v => v.id)).Nodup)
    (hu : u ∈ s) (hid : doc.id = u.id) (hc : doc.createdAt = u.createdAt) :
    save s u doc = .ok (replaceRecord s doc) := by
  unfold save
  by_cases hsame : doc = u
  · rw [if_pos hsame, hsame, replaceRecord_self s u hnd hu]
  · have hany : s.any (fun v => v.id == doc.id) = true := by
      rw [List.any_eq_true]
      exact ⟨u, hu, by simp [hid]⟩
    rw [if_neg hsame, if_pos hany]
    congr 1
    unfold replaceRecord
    apply List.map_congr_left
    intro v hv
    by_cases h : v.id = doc.id
    · have hvu : v = u := eq_of_id_eq s hnd u v hu hv (h.trans hid)
      rw [if_pos h, if_pos h, hvu, writeModified_loaded u doc hid hc]
    · rw [if_neg h, if_neg h]

theorem findByIdAndDelete_present (env : Env) (s : Store) (u : User)
    (hwf : wellFormed env s) (hu : u ∈ s) :
    findByIdAndDelete env s u.id = .ok (removeRecord s u.id) := by
  simp [findByIdAndDelete, hwf.2 u hu, removeRecord]

theorem sampleStore_wellFormed : wellFormed sampleEnv sampleStore := by
  constructor <;> decide

/-! ## Soft delete, activate, permanent delete -/

theorem deactivateUser_present (env : Env) (s : Store) (u : User)
    (hwf : wellFormed env s) (hu : u ∈ s) :
    deactivateUser env s u.id =
      (.json 200 (.done "User deactivated successfully"),
        replaceRecord s { u with isActive := false }) := by
  simp [deactivateUser, findById_present env s u hwf hu,
    save_present s u { u with isActive := false } hwf.1 hu rfl rfl]

theorem activateUser_present (env : Env) (s : Store) (u : User)
    (hwf : wellFormed env s) (hu : u ∈ s) :
    activateUser env s u.id =
      (.json 200 (.one (deleteKey "password" (toObject { u with isActive := true }))
          (some "User activated successfully")),
        replaceRecord s { u with isActive := true }) := by
  simp [activateUser, findById_present env s u hwf hu,
    save_present s u { u with isActive := true } hwf.1 hu rfl rfl]

theorem deleteUser_present (env : Env) (s : Store) (u : User)
    (hwf : wellFormed env s) (hu : u ∈ s) :
    deleteUser env s u.id =
      (.json 200 (.done "User permanently deleted"), removeRecord s u.id) := by
  simp [deleteUser, findById_present env s u hwf hu,
    findByIdAndDelete_present env s u hwf hu]

theorem getUser_present (env : Env) (s : Store) (u : User)
    (hwf : wellFormed env s) (hu : u ∈ s) :
    getUser env s u.id = .json 200 (.one (selectMinus "password" u) none) := by
  simp [getUser, findById_present env s u hwf hu]

/-- C8: for a record of a well-formed store, soft delete answers 200 and the
stored record becomes the same record with isActive false; a second soft
delete answers 200 and leaves the store as the first left it; activate answers
200 and the stored record becomes the same record with isActive true; on a
record that is active already, activate answers 200 and leaves the whole store
as it was. -/
theorem deactivate_activate_idempotent (env : Env) (s : Store) (u : User)
    (hwf : wellFormed env s) (hu : u ∈ s) :
    (deactivateUser env s u.id).1 = .json 200 (.done "User deactivated successfully") ∧
    findById env (deactivateUser env s u.id).2 u.id =
      .ok (some { u with isActive := false }) ∧
    deactivateUser env (deactivateUser env s u.id).2 u.id =
      (.json 200 (.done "User deactivated successfully"), (deactivateUser env s u.id).2) ∧
    (activateUser env s u.id).1 =
      .json 200 (.one (deleteKey "password" (toObject { u with isActive := true }))
        (some "User activated successfully")) ∧
    findById env (activateUser env s u.id).2 u.id =
      .ok (some { u with isActive := true }) ∧
    (u.isActive = true → (activateUser env s u.id).2 = s) := by
  have hoff : ({ u with isActive := false } : User).id = u.id := rfl
  have hon : ({ u with isActive := true } : User).id = u.id := rfl
  have hwf1 := wellFormed_replaceRecord env s u { u with isActive := false } hwf hu hoff
  have hmem1 : { u with isActive := false } ∈ replaceRecord s { u with isActive := false } :=
    (mem_replaceRecord s u _ hu hoff _).mpr (Or.inl rfl)
  refine ⟨?_, ?_, ?_, ?_, ?_, ?_⟩
  · rw [deactivateUser_present env s u hwf hu]
  · rw [deactivateUser_present env s u hwf hu]
    exact findById_replaceRecord env s u _ hwf hu hoff
  · rw [deactivateUser_present env s u hwf hu]
    have h2 := deactivateUser_present env _ { u with isActive := false } hwf1 hmem1
    rw [replaceRecord_self _ _ hwf1.1 hmem1] at h2
    exact h2
  · rw [activateUser_present env s u hwf hu]
  · rw [activateUser_present env s u hwf hu]
    exact findById_replaceRecord env s u _ hwf hu hon
  · intro hact
    rw [activateUser_present env s u hwf hu]
    have hsame : ({ u with isActive := true } : User) = u := by
      cases u
      simp only [User.mk.injEq, true_and, and_true] at hact ⊢
      simp_all
    rw [hsame]
    exact replaceRecord_self s u hwf.1 hu

/-- C8 (witness): the first record of the sample store, which is active. -/
theorem deactivate_activate_idempotent_witness :
    (wellFormed sampleEnv sampleStore ∧ ann ∈ sampleStore) ∧
    (deactivateUser sampleEnv sampleStore ann.id).1 =
      .json 200 (.done "User deactivated successfully") ∧
    (activateUser sampleEnv sampleStore ann.id).2 = sampleStore :=
  have h := deactivate_activate_idempotent sampleEnv sampleStore ann
    sampleStore_wellFormed (by decide)
  ⟨⟨sampleStore_wellFormed, by decide⟩, h.1, h.2.2.2.2.2 rfl⟩

/-- C9: for a record of a well-formed store, after the soft delete the record
with isActive false is in the store and get-by-id answers 200 with the
document it answered before except for isActive false; after the permanent
delete no record with that id is in the store, the records left are exactly
the other records of the store, and get-by-id answers 404. -/
theorem delete_visibility (env : Env) (s : Store) (u : User)
    (hwf : wellFormed env s) (hu : u ∈ s) :
    getUser env s u.id = .json 200 (.one (selectMinus "password" u) none) ∧
    { u with isActive := false } ∈ (deactivateUser env s u.id).2 ∧
    getUser env (deactivateUser env s u.id).2 u.id =
      .json 200 (.one (selectMinus "password" { u with isActive := false }) none) ∧
    (deleteUser env s u.id).1 = .json 200 (.done "User permanently deleted") ∧
    (∀ v, v ∈ (deleteUser env s u.id).2 ↔ v ∈ s ∧ v ≠ u) ∧
    (deleteUser env s u.id).2.Sublist s ∧
    (∀ v ∈ (deleteUser env s u.id).2, v.id ≠ u.id) ∧
    getUser env (deleteUser env s u.id).2 u.id = .json 404 (.failure "User not found") := by
  have hoff : ({ u with isActive := false } : User).id = u.id := rfl
  have hwf1 := wellFormed_replaceRecord env s u { u with isActive := false } hwf hu hoff
  have hmem1 : { u with isActive := false } ∈ replaceRecord s { u with isActive := false } :=
    (mem_replaceRecord s u _ hu hoff _).mpr (Or.inl rfl)
  have hdel := mem_removeRecord s u hu hwf.1
  refine ⟨getUser_present env s u hwf hu, ?_, ?_, ?_, ?_, ?_, ?_, ?_⟩
  · rw [deactivateUser_present env s u hwf hu]
    exact hmem1
  · rw [deactivateUser_present env s u hwf hu]
    exact getUser_present env _ { u with isActive := false } hwf1 hmem1
  · rw [deleteUser_present env s u hwf hu]
  · intro v
    rw [deleteUser_present env s u hwf hu]
    rw [hdel v]
    constructor
    · rintro ⟨hv, hne⟩
      exact ⟨hv, fun h => hne (congrArg User.id h)⟩
    · rintro ⟨hv, hne⟩
      exact ⟨hv, fun h => hne (eq_of_id_eq s hwf.1 u v hu hv h)⟩
  · rw [deleteUser_present env s u hwf hu]
    exact removeRecord_sublist s u.id
  · intro v hv
    rw [deleteUser_present env s u hwf hu] at hv
    exact ((hdel v).mp hv).2
  · rw [deleteUser_present env s u hwf hu]
    have habs : ∀ v ∈ removeRecord s u.id, v.id ≠ u.id :=
      fun v hv => ((hdel v).mp hv).2
    have h := findById_absent env (removeRecord s u.id) u.id u.id (hwf.2 u hu) habs
    simp [getUser, h]

/-- C9 (witness): the second record of the sample store. -/
theorem delete_visibility_witness :
    (wellFormed sampleEnv sampleStore ∧ bob ∈ sampleStore) ∧
    (deleteUser sampleEnv sampleStore bob.id).1 =
      .json 200 (.done "User permanently deleted") ∧
    getUser sampleEnv (deleteUser sampleEnv sampleStore bob.id).2 bob.id =
      .json 404 (.failure "User not found") :=
  have h := delete_visibility sampleEnv sampleStore bob sampleStore_wellFormed (by decide)
  ⟨⟨sampleStore_wellFormed, by decide⟩, h.2.2.2.1, h.2.2.2.2.2.2.2⟩

/-! ## Partial update -/

theorem runSteps_check_snd (path : String) (test : String → Bool) (msg : String)
    (rest : List Step) (v : Option JVal) :
    (runSteps path (.check test msg :: rest) v).2 = (runSteps path rest v).2 := by
  simp only [runSteps]
  split_ifs <;> rfl

theorem runSteps_sanitize (path : String) (f : String → JVal)
    (rest : List Step) (v : Option JVal) :
    runSteps path (.sanitize f :: rest) v = runSteps path rest (some (f (toStr v))) := rfl

theorem runSteps_nil (path : String) (v : Option JVal) : runSteps path [] v = ([], v) := rfl

theorem validateUserUpdate_body (env : Env) (b : Body) :
    (validateUserUpdate env b).2 =
      { b with
        name := b.name.map (fun v => JVal.str (trim (toStr (some v))))
        email := b.email.map (fun v => env.normalizeEmail (toStr (some v))) } := by
  obtain ⟨id, name, email, password, age, role, isActive, others⟩ := b
  cases name <;> cases email <;> cases age <;> cases role <;> cases isActive <;>
    simp [validateUserUpdate, validateUserUpdateChains, runChains, runChain, Body.get,
      Body.put, runSteps_check_snd, runSteps_sanitize, runSteps_nil]

theorem assignAll_frame {α : Type} (env : Env) (proj : User → α) (touches : Path → Bool)
    (hfield : ∀ u key v u2, assignField env u key v = some u2 → touches key = false →
      proj u2 = proj u) :
    ∀ (l : List (Path × JVal)) (u u2 : User), assignAll env u l = some u2 →
      (∀ kv ∈ l, touches kv.1 = false) → proj u2 = proj u := by
  intro l
  induction l with
  | nil =>
    intro u u2 h _
    simp only [assignAll, Option.some.injEq] at h
    rw [h]
  | cons kv rest ih =>
    intro u u2 h hk
    obtain ⟨key, v⟩ := kv
    simp only [assignAll, Option.bind_eq_some] at h
    obtain ⟨u1, h1, h2⟩ := h
    rw [ih u1 u2 h2 (fun kv hkv => hk kv (List.mem_cons_of_mem _ hkv))]
    exact hfield u key v u1 h1 (hk (key, v) (List.mem_cons_self _ _))

theorem assignField_frame (env : Env) (u : User) (key : Path) (v : JVal) (u2 : User)
    (h : assignField env u key v = some u2) :
    u2.createdAt = u.createdAt ∧
    (key ≠ .id → u2.id = u.id) ∧ (key ≠ .name → u2.name = u.name) ∧
    (key ≠ .email → u2.email = u.email) ∧ (key ≠ .password → u2.password = u.password) ∧
    (key ≠ .age → u2.age = u.age) ∧ (key ≠ .role → u2.role = u.role) ∧
    (key ≠ .isActive → u2.isActive = u.isActive) := by
  cases key <;> simp only [assignField, Option.map_eq_some'] at h <;>
    obtain ⟨x, _, rfl⟩ := h <;> simp

theorem mem_entries (b : Body) (key : Path) (v : JVal) (h : (key, v) ∈ b.entries) :
    (key = .id → b.id = some v) ∧ (key = .name → b.name = some v) ∧
    (key = .email → b.email = some v) ∧ (key = .password → b.password = some v) ∧
    (key = .age → b.age = some v) ∧ (key = .role → b.role = some v) ∧
    (key = .isActive → b.isActive = some v) := by
  simp only [Body.entries, List.mem_append, Option.mem_toList, Option.mem_def,
    Option.map_eq_some', Prod.mk.injEq] at h
  rcases h with ((((((⟨x, hx, rfl, rfl⟩ | ⟨x, hx, rfl, rfl⟩) | ⟨x, hx, rfl, rfl⟩) |
      ⟨x, hx, rfl, rfl⟩) | ⟨x, hx, rfl, rfl⟩) | ⟨x, hx, rfl, rfl⟩) | ⟨x, hx, rfl, rfl⟩) <;>
    simp [hx]

theorem assignAll_entries_frame (env : Env) (b : Body) (u u2 : User)
    (ha : assignAll env u b.entries = some u2) :
    u2.createdAt = u.createdAt ∧
    (b.id = none → u2.id = u.id) ∧
    (b.name = none → u2.name = u.name) ∧
    (b.email = none → u2.email = u.email) ∧
    (b.password = none → u2.password = u.password) ∧
    (b.age = none → u2.age = u.age) ∧
    (b.role = none → u2.role = u.role) ∧
    (b.isActive = none → u2.isActive = u.isActive) := by
  have hkey : ∀ (key : Path) (absent : Prop), (absent → ∀ v, (key, v) ∉ b.entries) →
      absent → ∀ kv ∈ b.entries, (kv.1 == key) = false := by
    intro key absent hno habs kv hkv
    have hne : kv.1 ≠ key := by
      rintro rfl
      exact hno habs kv.2 hkv
    simpa using hne
  refine ⟨?_, ?_, ?_, ?_, ?_, ?_, ?_, ?_⟩
  · exact assignAll_frame env (fun w => w.createdAt) (fun _ => false)
      (fun u key v u2 h _ => (assignField_frame env u key v u2 h).1)
      b.entries u u2 ha (fun _ _ => rfl)
  · intro h
    exact assignAll_frame env (fun w => w.id) (fun k => k == .id)
      (fun u key v u2 h hk => (assignField_frame env u key v u2 h).2.1 (by simpa using hk))
      b.entries u u2 ha
      (hkey .id _ (fun habs v hv => by simp [(mem_entries b _ v hv).1 rfl] at habs) h)
  · intro h
    exact assignAll_frame env (fun w => w.name) (fun k => k == .name)
      (fun u key v u2 h hk => (assignField_frame env u key v u2 h).2.2.1 (by simpa using hk))
      b.entries u u2 ha
      (hkey .name _ (fun habs v hv => by simp [(mem_entries b _ v hv).2.1 rfl] at habs) h)
  · intro h
    exact assignAll_frame env (fun w => w.email) (fun k => k == .email)
      (fun u key v u2 h hk => (assignField_frame env u key v u2 h).2.2.2.1 (by simpa using hk))
      b.entries u u2 ha
      (hkey .email _ (fun habs v hv => by simp [(mem_entries b _ v hv).2.2.1 rfl] at habs) h)
  · intro h
    exact assignAll_frame env (fun w => w.password) (fun k => k == .password)
      (fun u key v u2 h hk =>
        (assignField_frame env u key v u2 h).2.2.2.2.1 (by simpa using hk))
      b.entries u u2 ha
      (hkey .password _
        (fun habs v hv => by simp [(mem_entries b _ v hv).2.2.2.1 rfl] at habs) h)
  · intro h
    exact assignAll_frame env (fun w => w.age) (fun k => k == .age)
      (fun u key v u2 h hk =>
        (assignField_frame env u key v u2 h).2.2.2.2.2.1 (by simpa using hk))
      b.entries u u2 ha
      (hkey .age _
        (fun habs v hv => by simp [(mem_entries b _ v hv).2.2.2.2.1 rfl] at habs) h)
  · intro h
    exact assignAll_frame env (fun w => w.role) (fun k => k == .role)
      (fun u key v u2 h hk =>
        (assignField_frame env u key v u2 h).2.2.2.2.2.2.1 (by simpa using hk))
      b.entries u u2 ha
      (hkey .role _
        (fun habs v hv => by simp [(mem_entries b _ v hv).2.2.2.2.2.1 rfl] at habs) h)
  · intro h
    exact assignAll_frame env (fun w => w.isActive) (fun k => k == .isActive)
      (fun u key v u2 h hk =>
        (assignField_frame env u key v u2 h).2.2.2.2.2.2.2 (by simpa using hk))
      b.entries u u2 ha
      (hkey .isActive _
        (fun habs v hv => by simp [(mem_entries b _ v hv).2.2.2.2.2.2 rfl] at habs) h)

theorem updateUser_store (env : Env) (s : Store) (u : User) (body : Body)
    (hwf : wellFormed env s) (hu : u ∈ s) :
    (updateUser env s u.id body).2 = s ∨
    ∃ u2, assignAll env u ((validateUserUpdate env body).2.entries ++
        aliasEntries env (validateUserUpdate env body).2) = some u2 ∧
      save s u u2 = .ok (updateUser env s u.id body).2 := by
  unfold updateUser
  simp only [findById_present env s u hwf hu]
  split
  · exact Or.inl rfl
  · split_ifs
    · exact Or.inl rfl
    · split
      · exact Or.inl rfl
      · rename_i u2 ha
        split
        · exact Or.inl rfl
        · rename_i s2 hs
          exact Or.inr ⟨u2, ha, hs⟩
    · split
      · exact Or.inl rfl
      · rename_i u2 ha
        split
        · exact Or.inl rfl
        · rename_i s2 hs
          exact Or.inr ⟨u2, ha, hs⟩

theorem updateUser_name_only (env : Env) (s : Store) (u : User) (n : String)
    (hwf : wellFormed env s) (hu : u ∈ s) (hn : isLength 2 (some 50) n = true) :
    updateUser env s u.id { name := some (.str n) } =
      (.json 200 (.one (deleteKey "password" (toObject { u with name := trim n })) none),
        replaceRecord s { u with name := trim n }) := by
  have hv : (validateUserUpdate env { name := some (.str n) }).1 = [] := by
    simp [validateUserUpdate, validateUserUpdateChains, runChains, runChain, runSteps,
      Body.get, Body.put, toStr, hn]
  have hb := validateUserUpdate_body env { name := some (.str n) }
  simp only [Option.map_some', Option.map_none', toStr] at hb
  have ha : assignAll env u ((validateUserUpdate env { name := some (.str n) }).2.entries ++
      aliasEntries env (validateUserUpdate env { name := some (.str n) }).2) =
      some { u with name := trim n } := by
    rw [hb]
    simp [Body.entries, aliasEntries, aliasValues, Body.otherEntries, assignAll,
      assignField, castString]
  have he : otherEffect env (validateUserUpdate env { name := some (.str n) }).2 = .inert := by
    rw [hb]
    simp [otherEffect, Body.otherEntries]
  simp [updateUser, hv, handleValidationErrors_nil, findById_present env s u hwf hu, ha, he,
    save_present s u { u with name := trim n } hwf.1 hu rfl rfl]

/-- C2 (counterexample): an update addressed to the first sample record with
the body `_id: <id of the second record>, name: "Zed"` is answered 200 and the
store then holds the first record as it was and the second record renamed:
a record other than the one addressed has changed. -/
theorem update_redirected :
    updateUser sampleEnv sampleStore idAnn redirectBody =
      (.json 200 (.one (deleteKey "password"
          (toObject { ann with id := idBob, name := "Zed" })) none),
        [ann, { bob with name := "Zed" }]) ∧
    sampleStore = [ann, bob] ∧ bob.id ≠ idAnn ∧ bob.name ≠ "Zed" := by decide

/-- C2 (amended): for a record of a well-formed store and any update body
without the key `_id` and without an alias of it, the record stored under that
id after the request keeps
its id and every field whose key is absent from the body,
and the store is the old one with that record in the place of the old record,
so the records under the other ids are the same as before.  For a body that
holds only `name`, with a value the name rule accepts before and after
trimming, the request is answered 200 and the store is the old one with the
trimmed name written to that record, so email, password, age, role and
isActive are as before. -/
theorem update_preserves_absent_fields (env : Env) (s : Store) (u : User) (body : Body)
    (hwf : wellFormed env s) (hu : u ∈ s) (hid : body.id = none)
    (halias : aliasValues env body = []) :
    (∃ u2, (updateUser env s u.id body).2 = replaceRecord s u2 ∧
      findById env (updateUser env s u.id body).2 u.id = .ok (some u2) ∧
      u2.id = u.id ∧
      ((∀ kv ∈ body.others, kv.1 ≠ "createdAt") → u2.createdAt = u.createdAt) ∧
      (body.name = none → u2.name = u.name) ∧
      (body.email = none → u2.email = u.email) ∧
      (body.password = none → u2.password = u.password) ∧
      (body.age = none → u2.age = u.age) ∧
      (body.role = none → u2.role = u.role) ∧
      (body.isActive = none → u2.isActive = u.isActive)) ∧
    (∀ v, v.id ≠ u.id → (v ∈ (updateUser env s u.id body).2 ↔ v ∈ s)) ∧
    (∀ n, isLength 2 (some 50) n = true → isLength 2 (some 50) (trim n) = true →
      updateUser env s u.id { name := some (.str n) } =
        (.json 200 (.one (deleteKey "password" (toObject { u with name := trim n })) none),
          replaceRecord s { u with name := trim n })) := by
  have hstore : ∃ u2, (updateUser env s u.id body).2 = replaceRecord s u2 ∧
      u2.id = u.id ∧ u2.createdAt = u.createdAt ∧
      (body.name = none → u2.name = u.name) ∧
      (body.email = none → u2.email = u.email) ∧
      (body.password = none → u2.password = u.password) ∧
      (body.age = none → u2.age = u.age) ∧
      (body.role = none → u2.role = u.role) ∧
      (body.isActive = none → u2.isActive = u.isActive) := by
    rcases updateUser_store env s u body hwf hu with h | ⟨u2, ha, hs⟩
    · exact ⟨u, by rw [h, replaceRecord_self s u hwf.1 hu], rfl, rfl, fun _ => rfl,
        fun _ => rfl, fun _ => rfl, fun _ => rfl, fun _ => rfl, fun _ => rfl⟩
    · have hal : aliasEntries env (validateUserUpdate env body).2 = [] := by
        rw [validateUserUpdate_body]
        simpa [aliasEntries, aliasValues, Body.otherEntries] using halias
      rw [hal, List.append_nil] at ha
      have hf := assignAll_entries_frame env _ u u2 ha
      rw [validateUserUpdate_body] at hf
      have hid2 : u2.id = u.id := hf.2.1 hid
      rw [save_present s u u2 hwf.1 hu hid2 hf.1] at hs
      injection hs with hs
      refine ⟨u2, hs.symm, hid2, hf.1, ?_, ?_, hf.2.2.2.2.1, hf.2.2.2.2.2.1,
        hf.2.2.2.2.2.2.1, hf.2.2.2.2.2.2.2⟩
      · intro h
        exact hf.2.2.1 (by simp [h])
      · intro h
        exact hf.2.2.2.1 (by simp [h])
  obtain ⟨u2, hs, hid2, hrest⟩ := hstore
  refine ⟨⟨u2, hs, ?_, hid2, fun _ => hrest.1, hrest.2⟩, ?_,
    fun n hn _ => updateUser_name_only env s u n hwf hu hn⟩
  · rw [hs]
    exact findById_replaceRecord env s u u2 hwf hu hid2
  · intro v hne
    rw [hs, mem_replaceRecord s u u2 hu hid2 v]
    constructor
    · rintro (rfl | ⟨h, _⟩)
      · exact absurd hid2 hne
      · exact h
    · intro h
      exact Or.inr ⟨h, hne⟩

/-- C2 (witness): the update of the first sample record with the body
`name: "  Zed "` stores the name "Zed" and leaves the rest of the store. -/
theorem update_preserves_absent_fields_witness :
    (wellFormed sampleEnv sampleStore ∧ ann ∈ sampleStore) ∧
    updateUser sampleEnv sampleStore ann.id { name := some (.str "  Zed ") } =
      (.json 200 (.one (deleteKey "password" (toObject { ann with name := "Zed" })) none),
        [{ ann with name := "Zed" }, bob]) :=
  ⟨⟨sampleStore_wellFormed, by decide⟩,
   (update_preserves_absent_fields sampleEnv sampleStore ann {} sampleStore_wellFormed
      (by decide) rfl rfl).2.2 "  Zed " (by decide) (by decide)⟩

/-! ## Listing -/

theorem floor_div_of_pos (a b : Int) (hb : 0 < b) : ⌊(a : ℚ) / (b : ℚ)⌋ = a / b := by
  obtain ⟨n, rfl⟩ := Int.eq_ofNat_of_zero_le (le_of_lt hb)
  exact Rat.floor_intCast_div_natCast a n

theorem ceilDiv_eq_ceil (a b : Int) (hb : b ≠ 0) :
    ceilDiv a b = ⌈(a : ℚ) / (b : ℚ)⌉ := by
  unfold ceilDiv
  split_ifs with h
  · rw [← floor_div_of_pos (-a) b h, ← Int.ceil_neg]
    congr 1
    push_cast
    ring
  · have hneg : 0 < -b := by omega
    rw [← floor_div_of_pos a (-b) hneg, ← Int.ceil_neg]
    congr 1
    push_cast
    rw [div_neg, neg_neg]

theorem mem_matching (f : Filter) (test : String → Bool) (s : Store) (u : User) :
    u ∈ matching f test s ↔ u ∈ s ∧ f.accepts test u = true := by
  unfold matching
  rw [(List.perm_insertionSort _ _).mem_iff, List.mem_filter]

theorem mem_window (skip limit : JsNum) (docs page : List User)
    (h : window skip limit docs = .ok page) (u : User) (hu : u ∈ page) : u ∈ docs := by
  unfold window at h
  split at h
  · cases h
  · injection h with h
    subst h
    split at hu
    · exact List.mem_of_mem_drop hu
    · exact List.mem_of_mem_drop (List.mem_of_mem_take hu)

theorem listUsers_documents_mem (env : Env) (s : Store) (q : Query) (o : Obj)
    (h : o ∈ (listUsers env s q).documents) :
    ∃ test u, (buildFilter q).compile env = .ok test ∧ u ∈ s ∧
      (buildFilter q).accepts test u = true ∧ o = selectMinus "password" u := by
  unfold listUsers at h
  simp only [find, bind, Except.bind, pure, Except.pure] at h
  split at h
  · simp [Outcome.documents] at h
  · rename_i users hfind
    split at h
    · simp [Outcome.documents] at h
    · simp only [Outcome.documents, ResBody.documents] at h
      split at hfind
      · cases hfind
      · rename_i test htest
        split at hfind
        · cases hfind
        · rename_i docs hdocs
          injection hfind with hfind
          subst hfind
          obtain ⟨u, hu, hou⟩ := List.mem_map.mp h
          have hm := (mem_matching _ test s u).mp (mem_window _ _ _ _ hdocs u hu)
          exact ⟨test, u, htest, hm.1, hm.2, hou.symm⟩

theorem listUsers_ok (env : Env) (s : Store) (q : Query) (test : String → Bool)
    (limit skip : Int) (hc : (buildFilter q).compile env = .ok test)
    (hl : limitOf q = .int limit) (hl0 : limit ≠ 0)
    (hs : skipOf q = .int skip) (hs0 : 0 ≤ skip)
    (hn : (s.filter ((buildFilter q).accepts test)).length ≤ maxExact) :
    listUsers env s q =
      .json 200 (.list
        (((matching (buildFilter q) test s).drop (min skip.toNat int64Max)).take
          (min limit.natAbs int64Max)).length
        (.int (s.filter ((buildFilter q).accepts test)).length) (pageOf q)
        (.int (ceilDiv (s.filter ((buildFilter q).accepts test)).length limit))
        ((((matching (buildFilter q) test s).drop (min skip.toNat int64Max)).take
          (min limit.natAbs int64Max)).map (selectMinus "password"))) := by
  have hskip : ¬ skip < 0 := by omega
  have htotal : toDouble ((s.filter ((buildFilter q).accepts test)).length : Int) =
      .int (s.filter ((buildFilter q).accepts test)).length :=
    toDouble_exact _ (by simpa using hn)
  simp [listUsers, find, countDocuments, hc, window, skipCount, limitCount, hl, hs, hskip,
    hl0, htotal, mathCeilDiv, bind, Except.bind, pure, Except.pure]

/-- C1 (counterexample): with `limit=-5` the effective limit is -5 and the
handler answers with two records, which is more than the limit; with `page=-1`
the skip is negative and the handler ends in `next(error)` with no total; with
the search `(`, which no engine compiles, it ends in `next(error)` as well. -/
theorem list_negative_limit :
    limitOf { limit := some "-5" } = .int (-5) ∧
    listUsers sampleEnv sampleStore { limit := some "-5" } =
      .json 200 (.list 2 (.int 2) (.int 1) (.int 0)
        [selectMinus "password" bob, selectMinus "password" ann]) ∧
    ¬ ((2 : Int) ≤ -5) ∧
    listUsers sampleEnv sampleStore { page := some "-1" } = .next .badSkip ∧
    listUsers sampleEnv sampleStore { search := some "(" } = .next .badRegex := by decide

/-- C1 (amended): when the search pattern compiles, the limit `L` and the page
`P` asked for are positive integers with `(P - 1) * L` at most 2^53, and the
number `N` of records of the store that the filter accepts is at most 2^53,
the list handler answers 200 with total equal to `N`, with pages equal to the
ceiling of `N / L`, and with at most `L` records in data, their number being
`count`; the total does not depend on the page. -/
theorem list_pagination (env : Env) (s : Store) (q : Query) (test : String → Bool)
    (hc : (buildFilter q).compile env = .ok test)
    (hn : (s.filter ((buildFilter q).accepts test)).length ≤ maxExact)
    (L : Int) (hl : limitOf q = .int L) (hL : 0 < L)
    (p : Option String) (P : Int) (hp : pageOf { q with page := p } = .int P) (hP : 0 < P)
    (hskip : (P - 1) * L ≤ maxExact) :
    ∃ data : List Obj,
      listUsers env s { q with page := p } =
        .json 200 (.list data.length
          (.int (s.filter ((buildFilter q).accepts test)).length) (.int P)
          (.int ⌈((s.filter ((buildFilter q).accepts test)).length : ℚ) / (L : ℚ)⌉) data) ∧
      (data.length : Int) ≤ L := by
  have hl2 : limitOf { q with page := p } = .int L := hl
  have hs : skipOf { q with page := p } = .int ((P - 1) * L) := by
    unfold skipOf
    rw [hp, hl2]
    exact (skip_of_integers P L hP hL).2 hskip
  have hs0 : 0 ≤ (P - 1) * L := Int.mul_nonneg (by omega) (by omega)
  have h := listUsers_ok env s { q with page := p } test L ((P - 1) * L) hc hl2 (by omega)
    hs hs0 hn
  refine ⟨(((matching (buildFilter q) test s).drop (min ((P - 1) * L).toNat int64Max)).take
    (min L.natAbs int64Max)).map (selectMinus "password"), ?_, ?_⟩
  · have hce := ceilDiv_eq_ceil
      ((s.filter ((buildFilter q).accepts test)).length : Int) L (by omega)
    rw [Int.cast_natCast] at hce
    rw [h, List.length_map, ← hce, hp]
    rfl
  · rw [List.length_map]
    have h1 := List.length_take_le (min L.natAbs int64Max)
      ((matching (buildFilter q) test s).drop (min ((P - 1) * L).toNat int64Max))
    have h2 : (L.natAbs : Int) = L := Int.natAbs_of_nonneg (le_of_lt hL)
    have h3 : min L.natAbs int64Max ≤ L.natAbs := Nat.min_le_left _ _
    omega

/-- C1 (witness): page 2 with limit 1 of the sample store: one record of a
total of two, two pages. -/
theorem list_pagination_witness :
    ∃ data : List Obj,
      listUsers sampleEnv sampleStore { page := some "2", limit := some "1" } =
        .json 200 (.list data.length (.int (2 : ℕ)) (.int 2)
          (.int ⌈((2 : ℕ) : ℚ) / ((1 : ℤ) : ℚ)⌉) data) ∧
      (data.length : Int) ≤ 1 :=
  list_pagination sampleEnv sampleStore { limit := some "1" } (fun _ => true) rfl
    (by decide) 1 (by decide) (by decide) (some "2") 2 (by decide) (by decide) (by decide)

/-! ## Search -/

theorem matchesHere_iff_prefix (ps : List Char) (hlit : ∀ p ∈ ps, p ≠ '.') :
    ∀ cs : List Char,
      matchesHere ps cs = true ↔ ps.map Char.toLower <+: cs.map Char.toLower := by
  induction ps with
  | nil =>
    intro cs
    simp [matchesHere]
  | cons p ps ih =>
    intro cs
    have hp : p ≠ '.' := hlit p (List.mem_cons_self _ _)
    have ih2 := ih (fun x hx => hlit x (List.mem_cons_of_mem _ hx))
    cases cs with
    | nil => simp [matchesHere]
    | cons c cs =>
      simp only [matchesHere, charMatches, hp, if_false, Bool.and_eq_true, beq_iff_eq,
        List.map_cons, List.cons_prefix_cons, ih2 cs]

theorem matchesSomewhere_iff_infix (ps : List Char) (hlit : ∀ p ∈ ps, p ≠ '.') :
    ∀ cs : List Char,
      matchesSomewhere ps cs = true ↔ ps.map Char.toLower <:+: cs.map Char.toLower := by
  intro cs
  induction cs with
  | nil =>
    simp only [matchesSomewhere, matchesHere_iff_prefix ps hlit, List.map_nil,
      List.prefix_nil, List.infix_nil]
  | cons c cs ih =>
    simp only [matchesSomewhere, Bool.or_eq_true, matchesHere_iff_prefix ps hlit, ih,
      List.map_cons, List.infix_cons_iff]

theorem simpleRegex_literal : literalEngine simpleRegex Char.toLower := by
  intro pattern hlit
  have hall : pattern.toList.all (fun c => c = '.' || !regexMetaChars.contains c) = true := by
    rw [List.all_eq_true]
    intro c hc
    simp [hlit c hc]
  have hdot : ∀ c ∈ pattern.toList, c ≠ '.' := by
    intro c hc h
    exact hlit c hc (h ▸ by decide)
  refine ⟨fun text => matchesSomewhere pattern.toList text.toList, ?_, ?_⟩
  · unfold simpleRegex
    rw [if_pos hall]
  · intro text
    unfold containsIgnoringCase
    rw [Bool.eq_iff_iff, matchesSomewhere_iff_infix _ hdot, decide_eq_true_iff]

/-- C5 (counterexample): the search `a.c` with `isActive=true` returns the
record named "abc" with email "x@y.z": neither contains "a.c", the dot being
read as "any character". -/
theorem search_is_regex :
    listUsers sampleEnv sampleStore { search := some "a.c", isActive := some "true" } =
      .json 200 (.list 1 (.int 1) (.int 1) (.int 1) [selectMinus "password" ann]) ∧
    containsIgnoringCase Char.toLower ann.name "a.c" = false ∧
    containsIgnoringCase Char.toLower ann.email "a.c" = false := by decide

/-- C5 (amended): when the engine of the database matches a pattern with no
metacharacter exactly in the texts that contain it, letters compared after the
case folding `fold` of the engine, then for a search string with no
metacharacter the list handler called with that search and `isActive=true`
returns only records of the store that are active and whose name or email
contains the string, letters compared after `fold`. -/
theorem search_literal (env : Env) (fold : Char → Char)
    (hengine : literalEngine env.regex fold) (s : Store) (q : Query) (pattern : String)
    (hsearch : q.search = some pattern) (hact : q.isActive = some "true")
    (hlit : ∀ c ∈ pattern.toList, c ∉ regexMetaChars) (o : Obj)
    (ho : o ∈ (listUsers env s q).documents) :
    ∃ u ∈ s, o = selectMinus "password" u ∧ u.isActive = true ∧
      (containsIgnoringCase fold u.name pattern = true ∨
        containsIgnoringCase fold u.email pattern = true) := by
  obtain ⟨test, u, hc, hu, hacc, hou⟩ := listUsers_documents_mem _ s q o ho
  refine ⟨u, hu, hou, ?_, ?_⟩
  · simp only [Filter.accepts, buildFilter, hact, Option.map_some', Bool.and_eq_true] at hacc
    simpa using hacc.1.1
  · by_cases hempty : pattern = ""
    · left
      subst hempty
      simp [containsIgnoringCase]
    · obtain ⟨test2, hre, htest⟩ := hengine pattern hlit
      simp only [Filter.compile, buildFilter, hsearch, Option.some_bind, hempty, if_false,
        hre] at hc
      injection hc with hc
      subst hc
      simp only [Filter.accepts, buildFilter, hsearch, Option.some_bind, hempty, if_false,
        Bool.and_eq_true, Bool.or_eq_true, htest] at hacc
      exact hacc.2

/-- C5 (witness): the search `BO` with `isActive=true` on a store whose record
"Bob" is active returns that record alone, the engine of the sample
environment folding the ASCII letters. -/
theorem search_literal_witness :
    [("_id", JVal.str idBob), ("name", .str "Bob"), ("email", .str "bob@example.com"),
        ("role", .str "admin"), ("isActive", .bool true), ("createdAt", .num 2)] ∈
      (listUsers sampleEnv [ann, { bob with isActive := true }]
        { search := some "BO", isActive := some "true" }).documents ∧
    ∃ u ∈ [ann, { bob with isActive := true }],
      [("_id", JVal.str idBob), ("name", .str "Bob"), ("email", .str "bob@example.com"),
        ("role", .str "admin"), ("isActive", .bool true), ("createdAt", .num 2)] =
        selectMinus "password" u ∧ u.isActive = true ∧
      (containsIgnoringCase Char.toLower u.name "BO" = true ∨
        containsIgnoringCase Char.toLower u.email "BO" = true) :=
  ⟨by decide,
   search_literal sampleEnv Char.toLower simpleRegex_literal
     [ann, { bob with isActive := true }]
     { search := some "BO", isActive := some "true" } "BO" rfl rfl (by decide) _ (by decide)⟩

end UsersApi
